import Mathlib

/-!
Verification of the websocket hub of bignyap/go-utilities.

The Go sources embedded here are src/websocket/hub.go, src/websocket/broadcast.go
and the Client implementation (Send / SendJSON / Close).  Go maps are modelled as
association lists with string keys (`Map`), the mutable state of a `*Client`
pointer (its closed flag and bounded outbound channel) lives in a heap indexed by
the client's identity record, and every hub operation is a pure function from a
`HubState` to a `HubState` (plus its return value).
-/

namespace GoUtils.WS

/-! ## Go maps as association lists -/

/-- A Go map with string keys, modelled as an association list. -/
abbrev Map (β : Type) := List (String × β)

/-- Lookup in a Go map: the first binding of the key. -/
def mlookup {β : Type} (k : String) : Map β → Option β
  | [] => none
  | (k2, v) :: rest => if k2 = k then some v else mlookup k rest

/-- Go `delete(m, k)`: remove every binding of the key. -/
def meraseKey {β : Type} (k : String) : Map β → Map β
  | [] => []
  | (k2, v) :: rest =>
    if k2 = k then meraseKey k rest else (k2, v) :: meraseKey k rest

/-- Go `m[k] = v`: bind the key, replacing any existing binding. -/
def minsert {β : Type} (k : String) (v : β) (m : Map β) : Map β :=
  (k, v) :: meraseKey k m

/-- The keys of a map occur at most once (true of every map built by inserts). -/
abbrev KeysNodup {β : Type} (m : Map β) : Prop := (m.map Prod.fst).Nodup

@[simp] theorem mlookup_nil {β : Type} (k : String) : mlookup k ([] : Map β) = none := rfl

theorem mlookup_cons {β : Type} (k k2 : String) (v : β) (m : Map β) :
    mlookup k ((k2, v) :: m) = if k2 = k then some v else mlookup k m := rfl

@[simp] theorem meraseKey_nil {β : Type} (k : String) : meraseKey k ([] : Map β) = [] := rfl

theorem mlookup_meraseKey_self {β : Type} (k : String) (m : Map β) :
    mlookup k (meraseKey k m) = none := by
  induction m with
  | nil => rfl
  | cons p rest ih =>
    obtain ⟨k2, v⟩ := p
    by_cases h : k2 = k
    · simp [meraseKey, h, ih]
    · simp [meraseKey, h, mlookup, ih]

theorem mlookup_meraseKey_ne {β : Type} (k k2 : String) (m : Map β) (h : k2 ≠ k) :
    mlookup k2 (meraseKey k m) = mlookup k2 m := by
  induction m with
  | nil => rfl
  | cons p rest ih =>
    obtain ⟨k3, v⟩ := p
    by_cases h3 : k3 = k
    · subst h3
      rw [meraseKey, if_pos rfl, ih, mlookup_cons, if_neg (fun hh => h hh.symm)]
    · rw [meraseKey, if_neg h3, mlookup_cons, mlookup_cons, ih]

@[simp] theorem mlookup_minsert_self {β : Type} (k : String) (v : β) (m : Map β) :
    mlookup k (minsert k v m) = some v := by
  simp [minsert, mlookup]

theorem mlookup_minsert_ne {β : Type} (k k2 : String) (v : β) (m : Map β) (h : k2 ≠ k) :
    mlookup k2 (minsert k v m) = mlookup k2 m := by
  simp only [minsert, mlookup, if_neg (fun hh : k = k2 => h hh.symm)]
  exact mlookup_meraseKey_ne k k2 m h

theorem mlookup_isEmpty {β : Type} (k : String) (m : Map β) (h : m.isEmpty = true) :
    mlookup k m = none := by
  cases m with
  | nil => rfl
  | cons p rest => simp [List.isEmpty] at h

theorem mlookup_none_of_meraseKey_empty {β : Type} (k i : String) (l : Map β)
    (h : (meraseKey k l).isEmpty = true) (hne : i ≠ k) : mlookup i l = none := by
  induction l with
  | nil => rfl
  | cons p rest ih =>
    obtain ⟨k2, v⟩ := p
    by_cases hk : k2 = k
    · subst hk
      unfold meraseKey at h
      rw [if_pos rfl] at h
      rw [mlookup_cons, if_neg (fun hh => hne hh.symm)]
      exact ih h
    · unfold meraseKey at h
      rw [if_neg hk] at h
      simp [List.isEmpty] at h

/-! ## Clients

A Go `*Client` is identified by its immutable identity fields; the mutable part
(the closed flag, the buffered outbound channel `send` with capacity
`config.SendBufferSize`, and how many times the channel and the underlying
connection have been closed) is a `ClientMem` stored in a `Heap`. -/

/-- The immutable identity of a websocket client (fields ID, UserID, TenantID). -/
structure Client where
  id : String
  userID : String
  tenantID : String
deriving DecidableEq, Repr

/-- A message ([]byte payload). -/
abbrev Msg := List Nat

/-- The mutable state behind a client pointer: closed flag, outbound queue with
its capacity (config.SendBufferSize), and counters of how many times
close(c.send) and c.conn.Close() have run. -/
structure ClientMem where
  isClosed : Bool
  queue : List Msg
  cap : Nat
  sendClosedCount : Nat
  connClosedCount : Nat
deriving DecidableEq, Repr

/-- The heap: mutable state of every client pointer. -/
abbrev Heap := Client → ClientMem

/-- Write one client cell of the heap. -/
def hupdate (h : Heap) (c : Client) (m : ClientMem) : Heap :=
  fun c2 => if c2 = c then m else h c2

/-- Client.Send (client.go): return false if closed; otherwise a non-blocking
select on the buffered channel — succeed iff the queue is below capacity,
dropping the new message (and changing nothing) when the buffer is full. -/
def ClientMem.send (m : ClientMem) (msg : Msg) : ClientMem × Bool :=
  if m.isClosed then (m, false)
  else if m.queue.length < m.cap then ({ m with queue := m.queue ++ [msg] }, true)
  else (m, false)

/-- Client.Close (client.go): if already closed return; otherwise set the flag,
close the send channel and close the underlying connection. -/
def ClientMem.close (m : ClientMem) : ClientMem :=
  if m.isClosed then m
  else { m with
          isClosed := true
          sendClosedCount := m.sendClosedCount + 1
          connClosedCount := m.connClosedCount + 1 }

/-- Client.SendJSON (client.go): marshal first and return the marshal error on
failure; on success call Send, discard its boolean result, and return nil. -/
def ClientMem.sendJSON (m : ClientMem) (marshalled : Except String Msg) :
    ClientMem × Option String :=
  match marshalled with
  | .error e => (m, some e)
  | .ok data => ((m.send data).1, none)

/-! ## Hub state (hub.go)

Hub.clients maps userID to clientID to client; Hub.groups maps groupID to
userID to clientID to client.  The heap carries the mutable state of every
client pointer. -/

/-- One user bucket: clientID to client. -/
abbrev UserClients := Map Client

/-- One group: userID to user bucket. -/
abbrev GroupUsers := Map UserClients

/-- The hub registry together with the client heap. -/
structure HubState where
  clients : Map UserClients
  groups : Map GroupUsers
  heap : Heap

/-- NewHub: empty registry over a given heap. -/
def newHub (h : Heap) : HubState := { clients := [], groups := [], heap := h }

/-- Hub.registerClient (hub.go): create the user bucket when missing and bind
the client under its UserID and ID. -/
def registerClient (s : HubState) (c : Client) : HubState :=
  let uc := (mlookup c.userID s.clients).getD []
  { s with clients := minsert c.userID (minsert c.id c uc) s.clients }

/-- The group-removal loop of Hub.unregisterClient: for every group whose users
contain the UserID, delete the ID from that bucket, drop the bucket when it
becomes empty, and drop the group when it becomes empty. -/
def groupsRemoveClient (uid cid : String) : Map GroupUsers → Map GroupUsers
  | [] => []
  | (g, gu) :: rest =>
    match mlookup uid gu with
    | none => (g, gu) :: groupsRemoveClient uid cid rest
    | some uc =>
      let uc2 := meraseKey cid uc
      let gu2 := if uc2.isEmpty then meraseKey uid gu else minsert uid uc2 gu
      if gu2.isEmpty then groupsRemoveClient uid cid rest
      else (g, gu2) :: groupsRemoveClient uid cid rest

/-- Hub.unregisterClient (hub.go): when the client is bound in clients under its
UserID and ID, close it and delete the binding (pruning the emptied user
bucket); then remove it from every group. -/
def unregisterClient (s : HubState) (c : Client) : HubState :=
  let s1 :=
    match mlookup c.userID s.clients with
    | none => s
    | some uc =>
      match mlookup c.id uc with
      | none => s
      | some _ =>
        let uc2 := meraseKey c.id uc
        { s with
            heap := hupdate s.heap c ((s.heap c).close)
            clients :=
              if uc2.isEmpty then meraseKey c.userID s.clients
              else minsert c.userID uc2 s.clients }
  { s1 with groups := groupsRemoveClient c.userID c.id s1.groups }

/-- Hub.JoinGroup (hub.go): create the group and the user bucket when missing
and bind the client under its UserID and ID. -/
def joinGroup (s : HubState) (g : String) (c : Client) : HubState :=
  let gu := (mlookup g s.groups).getD []
  let uc := (mlookup c.userID gu).getD []
  { s with groups := minsert g (minsert c.userID (minsert c.id c uc) gu) s.groups }

/-- Hub.LeaveGroup (hub.go): when the group exists, delete the client from its
user bucket (pruning the emptied bucket), then prune the group if empty. -/
def leaveGroup (s : HubState) (g : String) (c : Client) : HubState :=
  match mlookup g s.groups with
  | none => s
  | some gu =>
    let gu2 :=
      match mlookup c.userID gu with
      | none => gu
      | some uc =>
        let uc2 := meraseKey c.id uc
        if uc2.isEmpty then meraseKey c.userID gu else minsert c.userID uc2 gu
    { s with
        groups :=
          if gu2.isEmpty then meraseKey g s.groups else minsert g gu2 s.groups }

/-- Hub.GetClient (broadcast.go): double lookup in clients. -/
def getClient (s : HubState) (u cid : String) : Option Client :=
  match mlookup u s.clients with
  | some uc => mlookup cid uc
  | none => none

/-- Hub.HasActiveConnection (broadcast.go): the user bucket exists and is
non-empty. -/
def hasActiveConnection (s : HubState) (u : String) : Bool :=
  match mlookup u s.clients with
  | some uc => decide (0 < uc.length)
  | none => false

/-- The close loop of Hub.DisconnectUser: Close every client of the bucket. -/
def closeAllLoop : List (String × Client) → Heap → Heap
  | [], h => h
  | (_, c) :: rest, h => closeAllLoop rest (hupdate h c ((h c).close))

/-- The group loop of Hub.DisconnectUser: delete the user from every group and
drop groups that become empty. -/
def groupsRemoveUser (u : String) : Map GroupUsers → Map GroupUsers
  | [] => []
  | (g, gu) :: rest =>
    let gu2 := meraseKey u gu
    if gu2.isEmpty then groupsRemoveUser u rest
    else (g, gu2) :: groupsRemoveUser u rest

/-- Hub.DisconnectUser (broadcast.go): close every client of the user, delete
the user bucket, then delete the user from every group (pruning empty groups). -/
def disconnectUser (s : HubState) (u : String) : HubState :=
  let s1 :=
    match mlookup u s.clients with
    | none => s
    | some uc =>
      { s with heap := closeAllLoop uc s.heap, clients := meraseKey u s.clients }
  { s1 with groups := groupsRemoveUser u s1.groups }

/-- Triple lookup into groups: groupID, then userID, then clientID. -/
def groupLookup (s : HubState) (g u cid : String) : Option Client :=
  mlookup cid ((mlookup u ((mlookup g s.groups).getD [])).getD [])

/-! ## Broadcast operations (broadcast.go) -/

/-- The per-bucket send loop without de-duplication (SendToUser, BroadcastAll
and the inner loop of SendToGroupExcept): attempt Send on every client of the
bucket and count the successes. -/
def sendAllLoop (msg : Msg) : List (String × Client) → Heap → Nat → Heap × Nat
  | [], h, n => (h, n)
  | (_, c) :: rest, h, n =>
    match (h c).send msg with
    | (m2, true) => sendAllLoop msg rest (hupdate h c m2) (n + 1)
    | (_, false) => sendAllLoop msg rest h n

/-- Hub.SendToUser (broadcast.go): attempt Send on every client of the user
bucket; 0 when the user has no bucket. -/
def sendToUser (s : HubState) (u : String) (msg : Msg) : HubState × Nat :=
  match mlookup u s.clients with
  | none => (s, 0)
  | some uc =>
    let r := sendAllLoop msg uc s.heap 0
    ({ s with heap := r.1 }, r.2)

/-- The inner loop of Hub.SendToGroup: skip clientIDs already in sentClients,
and record a clientID there only when its Send returns true. -/
def sendDedupLoop (msg : Msg) :
    List (String × Client) → Heap → List String → Nat → Heap × List String × Nat
  | [], h, sent, n => (h, sent, n)
  | (cid, c) :: rest, h, sent, n =>
    if cid ∈ sent then sendDedupLoop msg rest h sent n
    else
      match (h c).send msg with
      | (m2, true) => sendDedupLoop msg rest (hupdate h c m2) (cid :: sent) (n + 1)
      | (_, false) => sendDedupLoop msg rest h sent n

/-- The outer loop of Hub.SendToGroup over the user buckets of the group,
threading the heap, sentClients and the count. -/
def sendGroupUsersLoop (msg : Msg) :
    GroupUsers → Heap → List String → Nat → Heap × List String × Nat
  | [], h, sent, n => (h, sent, n)
  | (_, uc) :: rest, h, sent, n =>
    let r := sendDedupLoop msg uc h sent n
    sendGroupUsersLoop msg rest r.1 r.2.1 r.2.2

/-- Hub.SendToGroup (broadcast.go). -/
def sendToGroup (s : HubState) (g : String) (msg : Msg) : HubState × Nat :=
  match mlookup g s.groups with
  | none => (s, 0)
  | some gu =>
    let r := sendGroupUsersLoop msg gu s.heap [] 0
    ({ s with heap := r.1 }, r.2.2)

/-- The outer loop of Hub.SendToGroupExcept: skip the excluded userID, no
de-duplication in the inner loop. -/
def sendExceptLoop (msg : Msg) (exclude : String) :
    GroupUsers → Heap → Nat → Heap × Nat
  | [], h, n => (h, n)
  | (u, uc) :: rest, h, n =>
    if u = exclude then sendExceptLoop msg exclude rest h n
    else
      let r := sendAllLoop msg uc h n
      sendExceptLoop msg exclude rest r.1 r.2

/-- Hub.SendToGroupExcept (broadcast.go). -/
def sendToGroupExcept (s : HubState) (g exclude : String) (msg : Msg) :
    HubState × Nat :=
  match mlookup g s.groups with
  | none => (s, 0)
  | some gu =>
    let r := sendExceptLoop msg exclude gu s.heap 0
    ({ s with heap := r.1 }, r.2)

/-- The inner loop of Hub.SendToTenant: skip clients of another tenant, then
de-duplicate by clientID exactly as SendToGroup does. -/
def sendTenantLoopUC (msg : Msg) (t : String) :
    List (String × Client) → Heap → List String → Nat → Heap × List String × Nat
  | [], h, sent, n => (h, sent, n)
  | (cid, c) :: rest, h, sent, n =>
    if c.tenantID ≠ t then sendTenantLoopUC msg t rest h sent n
    else if cid ∈ sent then sendTenantLoopUC msg t rest h sent n
    else
      match (h c).send msg with
      | (m2, true) => sendTenantLoopUC msg t rest (hupdate h c m2) (cid :: sent) (n + 1)
      | (_, false) => sendTenantLoopUC msg t rest h sent n

/-- The outer loop of Hub.SendToTenant over every user bucket of clients. -/
def sendTenantLoop (msg : Msg) (t : String) :
    Map UserClients → Heap → List String → Nat → Heap × List String × Nat
  | [], h, sent, n => (h, sent, n)
  | (_, uc) :: rest, h, sent, n =>
    let r := sendTenantLoopUC msg t uc h sent n
    sendTenantLoop msg t rest r.1 r.2.1 r.2.2

/-- Hub.SendToTenant (broadcast.go). -/
def sendToTenant (s : HubState) (t : String) (msg : Msg) : HubState × Nat :=
  let r := sendTenantLoop msg t s.clients s.heap [] 0
  ({ s with heap := r.1 }, r.2.2)

/-- Hub.SendToUserJSON (broadcast.go): marshal first; on failure return the
error with count 0, otherwise defer to SendToUser. -/
def sendToUserJSON (s : HubState) (u : String) (marshalled : Except String Msg) :
    HubState × Nat × Option String :=
  match marshalled with
  | .error e => (s, 0, some e)
  | .ok data =>
    let r := sendToUser s u data
    (r.1, r.2, none)

/-- Hub.SendToGroupJSON (broadcast.go). -/
def sendToGroupJSON (s : HubState) (g : String) (marshalled : Except String Msg) :
    HubState × Nat × Option String :=
  match marshalled with
  | .error e => (s, 0, some e)
  | .ok data =>
    let r := sendToGroup s g data
    (r.1, r.2, none)

/-- Hub.SendToTenantJSON (broadcast.go). -/
def sendToTenantJSON (s : HubState) (t : String) (marshalled : Except String Msg) :
    HubState × Nat × Option String :=
  match marshalled with
  | .error e => (s, 0, some e)
  | .ok data =>
    let r := sendToTenant s t data
    (r.1, r.2, none)

theorem hupdate_self (h : Heap) (c : Client) (m : ClientMem) : hupdate h c m c = m := by
  unfold hupdate
  simp

theorem hupdate_ne (h : Heap) (c c2 : Client) (m : ClientMem) (hne : c2 ≠ c) :
    hupdate h c m c2 = h c2 := by
  unfold hupdate
  simp [hne]

/-! ## Basic lemmas about Send and Close -/

/-- The condition under which Client.Send succeeds, read off the initial state. -/
def sendOK (m : ClientMem) : Bool := !m.isClosed && decide (m.queue.length < m.cap)

theorem send_snd (m : ClientMem) (msg : Msg) : (m.send msg).2 = sendOK m := by
  unfold ClientMem.send sendOK
  by_cases h1 : m.isClosed
  · simp [h1]
  · by_cases h2 : m.queue.length < m.cap <;> simp [h1, h2]

theorem send_isClosed (m : ClientMem) (msg : Msg) :
    ((m.send msg).1).isClosed = m.isClosed := by
  unfold ClientMem.send
  by_cases h1 : m.isClosed
  · simp [h1]
  · by_cases h2 : m.queue.length < m.cap <;> simp [h1, h2]

theorem send_fail_eq (m : ClientMem) (msg : Msg) (h : sendOK m = false) :
    m.send msg = (m, false) := by
  unfold ClientMem.send
  unfold sendOK at h
  by_cases h1 : m.isClosed
  · simp [h1]
  · by_cases h2 : m.queue.length < m.cap
    · simp [h1, h2] at h
    · simp [h1, h2]

theorem close_isClosed (m : ClientMem) : m.close.isClosed = true := by
  unfold ClientMem.close
  by_cases h1 : m.isClosed <;> simp [h1]

theorem close_of_closed (m : ClientMem) (h : m.isClosed = true) : m.close = m := by
  unfold ClientMem.close
  simp [h]

/-! Closed-flag preservation through every send loop. -/

theorem sendAllLoop_isClosed (msg : Msg) (L : List (String × Client)) :
    ∀ (h : Heap) (n : Nat) (c : Client),
      (((sendAllLoop msg L h n).1) c).isClosed = (h c).isClosed := by
  induction L with
  | nil => intro h n c; rfl
  | cons p rest ih =>
    intro h n c
    obtain ⟨i, cl⟩ := p
    rcases hs : (h cl).send msg with ⟨m2, b⟩
    cases b
    · simp only [sendAllLoop, hs, ih]
    · simp only [sendAllLoop, hs, ih]
      unfold hupdate
      by_cases hc : c = cl
      · subst hc
        have hm : m2.isClosed = (h c).isClosed := by
          have := send_isClosed (h c) msg
          rw [hs] at this
          exact this
        simp [hm]
      · simp [hc]

theorem sendDedupLoop_isClosed (msg : Msg) (L : List (String × Client)) :
    ∀ (h : Heap) (sent : List String) (n : Nat) (c : Client),
      (((sendDedupLoop msg L h sent n).1) c).isClosed = (h c).isClosed := by
  induction L with
  | nil => intro h sent n c; rfl
  | cons p rest ih =>
    intro h sent n c
    obtain ⟨i, cl⟩ := p
    by_cases hmem : i ∈ sent
    · simp only [sendDedupLoop, if_pos hmem, ih]
    · rcases hs : (h cl).send msg with ⟨m2, b⟩
      cases b
      · simp only [sendDedupLoop, if_neg hmem, hs, ih]
      · simp only [sendDedupLoop, if_neg hmem, hs, ih]
        unfold hupdate
        by_cases hc : c = cl
        · subst hc
          have hm : m2.isClosed = (h c).isClosed := by
            have := send_isClosed (h c) msg
            rw [hs] at this
            exact this
          simp [hm]
        · simp [hc]

theorem sendGroupUsersLoop_isClosed (msg : Msg) (gu : GroupUsers) :
    ∀ (h : Heap) (sent : List String) (n : Nat) (c : Client),
      (((sendGroupUsersLoop msg gu h sent n).1) c).isClosed = (h c).isClosed := by
  induction gu with
  | nil => intro h sent n c; rfl
  | cons p rest ih =>
    intro h sent n c
    obtain ⟨g, uc⟩ := p
    simp only [sendGroupUsersLoop, ih, sendDedupLoop_isClosed]

theorem sendExceptLoop_isClosed (msg : Msg) (exclude : String) (gu : GroupUsers) :
    ∀ (h : Heap) (n : Nat) (c : Client),
      (((sendExceptLoop msg exclude gu h n).1) c).isClosed = (h c).isClosed := by
  induction gu with
  | nil => intro h n c; rfl
  | cons p rest ih =>
    intro h n c
    obtain ⟨u, uc⟩ := p
    by_cases he : u = exclude
    · simp only [sendExceptLoop, if_pos he, ih]
    · simp only [sendExceptLoop, if_neg he, ih, sendAllLoop_isClosed]

theorem sendTenantLoopUC_isClosed (msg : Msg) (t : String) (L : List (String × Client)) :
    ∀ (h : Heap) (sent : List String) (n : Nat) (c : Client),
      (((sendTenantLoopUC msg t L h sent n).1) c).isClosed = (h c).isClosed := by
  induction L with
  | nil => intro h sent n c; rfl
  | cons p rest ih =>
    intro h sent n c
    obtain ⟨i, cl⟩ := p
    by_cases ht : cl.tenantID ≠ t
    · simp only [sendTenantLoopUC, if_pos ht, ih]
    · by_cases hmem : i ∈ sent
      · simp only [sendTenantLoopUC, if_neg ht, if_pos hmem, ih]
      · rcases hs : (h cl).send msg with ⟨m2, b⟩
        cases b
        · simp only [sendTenantLoopUC, if_neg ht, if_neg hmem, hs, ih]
        · simp only [sendTenantLoopUC, if_neg ht, if_neg hmem, hs, ih]
          unfold hupdate
          by_cases hc : c = cl
          · subst hc
            have hm : m2.isClosed = (h c).isClosed := by
              have := send_isClosed (h c) msg
              rw [hs] at this
              exact this
            simp [hm]
          · simp [hc]

theorem sendTenantLoop_isClosed (msg : Msg) (t : String) (cs : Map UserClients) :
    ∀ (h : Heap) (sent : List String) (n : Nat) (c : Client),
      (((sendTenantLoop msg t cs h sent n).1) c).isClosed = (h c).isClosed := by
  induction cs with
  | nil => intro h sent n c; rfl
  | cons p rest ih =>
    intro h sent n c
    obtain ⟨u, uc⟩ := p
    simp only [sendTenantLoop, ih, sendTenantLoopUC_isClosed]

theorem closeAllLoop_isClosed_mono (L : List (String × Client)) :
    ∀ (h : Heap) (c : Client), (h c).isClosed = true →
      ((closeAllLoop L h) c).isClosed = true := by
  induction L with
  | nil => intro h c hc; exact hc
  | cons p rest ih =>
    intro h c hc
    obtain ⟨i, cl⟩ := p
    refine ih _ c ?_
    unfold hupdate
    by_cases hcc : c = cl
    · subst hcc; simp [close_isClosed]
    · simp [hcc, hc]

/-! Heap effects of the registry operations. -/

theorem registerClient_heap (s : HubState) (c : Client) :
    (registerClient s c).heap = s.heap := rfl

theorem joinGroup_heap (s : HubState) (g : String) (c : Client) :
    (joinGroup s g c).heap = s.heap := rfl

theorem leaveGroup_heap (s : HubState) (g : String) (c : Client) :
    (leaveGroup s g c).heap = s.heap := by
  unfold leaveGroup
  rcases hg : mlookup g s.groups with _ | gu <;> simp [hg]

theorem unregisterClient_heap_of_none (s : HubState) (c : Client)
    (h : getClient s c.userID c.id = none) : (unregisterClient s c).heap = s.heap := by
  unfold getClient at h
  unfold unregisterClient
  rcases hu : mlookup c.userID s.clients with _ | uc
  · simp [hu]
  · simp only [hu] at h
    simp [hu, h]

theorem unregisterClient_heap_of_some (s : HubState) (c c2 : Client)
    (h : getClient s c.userID c.id = some c2) :
    (unregisterClient s c).heap = hupdate s.heap c ((s.heap c).close) := by
  unfold getClient at h
  unfold unregisterClient
  rcases hu : mlookup c.userID s.clients with _ | uc
  · simp only [hu] at h
    exact Option.noConfusion h
  · simp only [hu] at h
    simp [hu, h]

theorem unregisterClient_isClosed_mono (s : HubState) (c c0 : Client)
    (h : (s.heap c0).isClosed = true) :
    ((unregisterClient s c).heap c0).isClosed = true := by
  rcases hg : getClient s c.userID c.id with _ | c2
  · rw [unregisterClient_heap_of_none s c hg]; exact h
  · rw [unregisterClient_heap_of_some s c c2 hg]
    unfold hupdate
    by_cases hc : c0 = c
    · simp [hc, close_isClosed]
    · simp [hc, h]

theorem closeAllLoop_not_mem (L : List (String × Client)) :
    ∀ (h : Heap) (c : Client), c ∉ L.map Prod.snd → closeAllLoop L h c = h c := by
  induction L with
  | nil => intro h c _; rfl
  | cons p rest ih =>
    intro h c hc
    obtain ⟨i, cl⟩ := p
    simp only [List.map_cons, List.mem_cons] at hc
    push_neg at hc
    unfold closeAllLoop
    rw [ih _ c hc.2]
    unfold hupdate
    simp [hc.1]

theorem closeAllLoop_mem (L : List (String × Client)) :
    ∀ (h : Heap) (c : Client), c ∈ L.map Prod.snd →
      ((closeAllLoop L h) c).isClosed = true := by
  induction L with
  | nil => intro h c hc; simp at hc
  | cons p rest ih =>
    intro h c hc
    obtain ⟨i, cl⟩ := p
    by_cases hr : c ∈ rest.map Prod.snd
    · exact ih _ c hr
    · have hcl : c = cl := by
        simp only [List.map_cons, List.mem_cons] at hc
        tauto
      subst hcl
      unfold closeAllLoop
      refine closeAllLoop_isClosed_mono rest _ c ?_
      unfold hupdate
      simp [close_isClosed]

theorem disconnectUser_isClosed_mono (s : HubState) (u : String) (c0 : Client)
    (h : (s.heap c0).isClosed = true) :
    ((disconnectUser s u).heap c0).isClosed = true := by
  unfold disconnectUser
  rcases hu : mlookup u s.clients with _ | uc
  · simp only [hu]; exact h
  · simp only [hu]
    exact closeAllLoop_isClosed_mono uc s.heap c0 h

theorem sendToUser_heap_isClosed (s : HubState) (u : String) (msg : Msg) (c0 : Client) :
    (((sendToUser s u msg).1).heap c0).isClosed = (s.heap c0).isClosed := by
  unfold sendToUser
  rcases hu : mlookup u s.clients with _ | uc
  · simp [hu]
  · simp [hu, sendAllLoop_isClosed]

theorem sendToGroup_heap_isClosed (s : HubState) (g : String) (msg : Msg) (c0 : Client) :
    (((sendToGroup s g msg).1).heap c0).isClosed = (s.heap c0).isClosed := by
  unfold sendToGroup
  rcases hg : mlookup g s.groups with _ | gu
  · simp [hg]
  · simp [hg, sendGroupUsersLoop_isClosed]

theorem sendToGroupExcept_heap_isClosed (s : HubState) (g exclude : String) (msg : Msg)
    (c0 : Client) :
    (((sendToGroupExcept s g exclude msg).1).heap c0).isClosed = (s.heap c0).isClosed := by
  unfold sendToGroupExcept
  rcases hg : mlookup g s.groups with _ | gu
  · simp [hg]
  · simp [hg, sendExceptLoop_isClosed]

theorem sendToTenant_heap_isClosed (s : HubState) (t : String) (msg : Msg) (c0 : Client) :
    (((sendToTenant s t msg).1).heap c0).isClosed = (s.heap c0).isClosed := by
  unfold sendToTenant
  simp [sendTenantLoop_isClosed]

/-! ## Claim theorems: client-level behaviour -/

/-- Claim C3: Client.Send returns false immediately when the client is closed,
and when the queue already holds SendBufferSize messages it returns false and
drops exactly the new message without evicting any queued one; otherwise it
appends the message to the queue and returns true. -/
theorem client_send_spec (m : ClientMem) (msg : Msg) :
    (m.isClosed = true → m.send msg = (m, false)) ∧
    (m.cap ≤ m.queue.length → m.send msg = (m, false)) ∧
    (m.isClosed = false → m.queue.length < m.cap →
      m.send msg = ({ m with queue := m.queue ++ [msg] }, true)) := by
  refine ⟨?_, ?_, ?_⟩
  · intro h; unfold ClientMem.send; simp [h]
  · intro h
    unfold ClientMem.send
    by_cases h1 : m.isClosed
    · simp [h1]
    · simp [h1, Nat.not_lt.mpr h]
  · intro h1 h2; unfold ClientMem.send; simp [h1, h2]

/-- Witness for C3 at SendBufferSize 2: a closed client fails, a full open
client fails keeping its queue, an open client below capacity succeeds. -/
theorem client_send_spec_witness :
    ClientMem.send ⟨true, [], 2, 1, 1⟩ [7] = (⟨true, [], 2, 1, 1⟩, false) ∧
    ClientMem.send ⟨false, [[1], [2]], 2, 0, 0⟩ [7] = (⟨false, [[1], [2]], 2, 0, 0⟩, false) ∧
    ClientMem.send ⟨false, [[1]], 2, 0, 0⟩ [7] = (⟨false, [[1], [7]], 2, 0, 0⟩, true) :=
  ⟨(client_send_spec ⟨true, [], 2, 1, 1⟩ [7]).1 rfl,
   (client_send_spec ⟨false, [[1], [2]], 2, 0, 0⟩ [7]).2.1 (by decide),
   (client_send_spec ⟨false, [[1]], 2, 0, 0⟩ [7]).2.2 rfl (by decide)⟩

/-- Claim C9: Client.SendJSON returns nil whenever marshalling succeeds, even
when the underlying Send fails because the client is closed or its queue is
full (the drop is invisible in the return value); only a marshalling failure
returns an error. -/
theorem client_sendJSON_spec (m : ClientMem) (data : Msg) (e : String) :
    (m.sendJSON (.ok data)).2 = none ∧
    ((m.isClosed = true ∨ m.cap ≤ m.queue.length) → m.sendJSON (.ok data) = (m, none)) ∧
    (m.sendJSON (.error e)).2 = some e := by
  refine ⟨rfl, ?_, rfl⟩
  intro h
  have hfail : m.send data = (m, false) := by
    rcases h with h1 | h2
    · unfold ClientMem.send; simp [h1]
    · refine send_fail_eq m data ?_
      unfold sendOK
      rw [decide_eq_false (Nat.not_lt.mpr h2)]
      simp
  unfold ClientMem.sendJSON
  simp [hfail]

/-- Witness for C9: a closed client and a full client both drop the message,
yet SendJSON reports no error. -/
theorem client_sendJSON_spec_witness :
    ClientMem.sendJSON ⟨true, [], 2, 1, 1⟩ (.ok [7]) = (⟨true, [], 2, 1, 1⟩, none) ∧
    ClientMem.sendJSON ⟨false, [[1], [2]], 2, 0, 0⟩ (.ok [7]) =
      (⟨false, [[1], [2]], 2, 0, 0⟩, none) :=
  ⟨(client_sendJSON_spec ⟨true, [], 2, 1, 1⟩ [7] "e").2.1 (Or.inl rfl),
   (client_sendJSON_spec ⟨false, [[1], [2]], 2, 0, 0⟩ [7] "e").2.1 (Or.inr (by decide))⟩

/-- Claim C6: Client.Close is idempotent; the first call from the open state
marks the client closed and closes the send channel and the connection exactly
once, a repeated call is a no-op, and a closed client stays closed under Send,
SendJSON, Close and every hub operation; Send after close fails. -/
theorem client_close_spec (m : ClientMem) (msg : Msg) (marshalled : Except String Msg)
    (s : HubState) (c c0 : Client) (g u t : String) :
    (m.isClosed = false →
      m.close = { m with isClosed := true,
                         sendClosedCount := m.sendClosedCount + 1,
                         connClosedCount := m.connClosedCount + 1 }) ∧
    (m.isClosed = true → m.close = m) ∧
    (m.close.close = m.close) ∧
    (m.close.isClosed = true) ∧
    (m.isClosed = true →
      ((m.send msg).1.isClosed = true ∧
       ((m.sendJSON marshalled).1).isClosed = true ∧
       m.send msg = (m, false))) ∧
    ((s.heap c0).isClosed = true →
      (((registerClient s c).heap c0).isClosed = true ∧
       ((unregisterClient s c).heap c0).isClosed = true ∧
       ((joinGroup s g c).heap c0).isClosed = true ∧
       ((leaveGroup s g c).heap c0).isClosed = true ∧
       ((disconnectUser s u).heap c0).isClosed = true ∧
       (((sendToUser s u msg).1).heap c0).isClosed = true ∧
       (((sendToGroup s g msg).1).heap c0).isClosed = true ∧
       (((sendToGroupExcept s g u msg).1).heap c0).isClosed = true ∧
       (((sendToTenant s t msg).1).heap c0).isClosed = true)) := by
  refine ⟨?_, ?_, ?_, close_isClosed m, ?_, ?_⟩
  · intro h; unfold ClientMem.close; simp [h]
  · exact close_of_closed m
  · exact close_of_closed m.close (close_isClosed m)
  · intro h
    refine ⟨?_, ?_, ?_⟩
    · rw [send_isClosed]; exact h
    · rcases marshalled with e | data
      · exact h
      · unfold ClientMem.sendJSON
        rw [send_isClosed]; exact h
    · unfold ClientMem.send; simp [h]
  · intro h
    refine ⟨?_, unregisterClient_isClosed_mono s c c0 h, ?_, ?_,
            disconnectUser_isClosed_mono s u c0 h, ?_, ?_, ?_, ?_⟩
    · rw [registerClient_heap]; exact h
    · rw [joinGroup_heap]; exact h
    · rw [leaveGroup_heap]; exact h
    · rw [sendToUser_heap_isClosed]; exact h
    · rw [sendToGroup_heap_isClosed]; exact h
    · rw [sendToGroupExcept_heap_isClosed]; exact h
    · rw [sendToTenant_heap_isClosed]; exact h

/-- Witness for C6: the first Close of an open client bumps both close counters
to one, a second Close changes nothing, Send on the closed client fails, and a
client closed in the heap stays closed across DisconnectUser. -/
theorem client_close_spec_witness :
    ClientMem.close ⟨false, [], 2, 0, 0⟩ = ⟨true, [], 2, 1, 1⟩ ∧
    ClientMem.close ⟨true, [], 2, 1, 1⟩ = ⟨true, [], 2, 1, 1⟩ ∧
    ClientMem.send ⟨true, [], 2, 1, 1⟩ [7] = (⟨true, [], 2, 1, 1⟩, false) ∧
    ((disconnectUser (newHub fun _ => ⟨true, [], 2, 1, 1⟩) "u1").heap
        ⟨"c1", "u1", "t1"⟩).isClosed = true :=
  ⟨(client_close_spec ⟨false, [], 2, 0, 0⟩ [7] (.ok [7])
      (newHub fun _ => ⟨true, [], 2, 1, 1⟩) ⟨"c1", "u1", "t1"⟩ ⟨"c1", "u1", "t1"⟩
      "g1" "u1" "t1").1 rfl,
   (client_close_spec ⟨true, [], 2, 1, 1⟩ [7] (.ok [7])
      (newHub fun _ => ⟨true, [], 2, 1, 1⟩) ⟨"c1", "u1", "t1"⟩ ⟨"c1", "u1", "t1"⟩
      "g1" "u1" "t1").2.1 rfl,
   ((client_close_spec ⟨true, [], 2, 1, 1⟩ [7] (.ok [7])
      (newHub fun _ => ⟨true, [], 2, 1, 1⟩) ⟨"c1", "u1", "t1"⟩ ⟨"c1", "u1", "t1"⟩
      "g1" "u1" "t1").2.2.2.2.1 rfl).2.2,
   ((client_close_spec ⟨true, [], 2, 1, 1⟩ [7] (.ok [7])
      (newHub fun _ => ⟨true, [], 2, 1, 1⟩) ⟨"c1", "u1", "t1"⟩ ⟨"c1", "u1", "t1"⟩
      "g1" "u1" "t1").2.2.2.2.2 rfl).2.2.2.2.1⟩

/-! ## Claim theorems: registration lifecycle -/

/-- Claim C5: a lookup by the client's UserID and ID succeeds with the client
right after Register processing, and fails right after Unregister processing. -/
theorem register_unregister_getClient (s : HubState) (c : Client) :
    getClient (registerClient s c) c.userID c.id = some c ∧
    getClient (unregisterClient s c) c.userID c.id = none := by
  constructor
  · unfold getClient registerClient
    simp [mlookup_minsert_self]
  · unfold getClient unregisterClient
    rcases hu : mlookup c.userID s.clients with _ | uc
    · simp [hu]
    · rcases hc : mlookup c.id uc with _ | c2
      · simp [hu, hc]
      · simp only [hu, hc]
        by_cases hemp : (meraseKey c.id uc).isEmpty
        · simp [hemp, mlookup_meraseKey_self]
        · simp [hemp, mlookup_minsert_self, mlookup_meraseKey_self]

/-! ## Claim theorems: JSON dispatch variants -/

/-- Claim C7: each Hub *JSON variant marshals first; a marshalling failure is
returned with a zero count and an unchanged hub state, and a success returns
exactly the result of the corresponding byte-message variant with a nil
error. -/
theorem json_variants_spec (s : HubState) (u g t : String)
    (marshalled : Except String Msg) :
    (∀ e, marshalled = .error e →
      sendToUserJSON s u marshalled = (s, 0, some e) ∧
      sendToGroupJSON s g marshalled = (s, 0, some e) ∧
      sendToTenantJSON s t marshalled = (s, 0, some e)) ∧
    (∀ d, marshalled = .ok d →
      sendToUserJSON s u marshalled = ((sendToUser s u d).1, (sendToUser s u d).2, none) ∧
      sendToGroupJSON s g marshalled = ((sendToGroup s g d).1, (sendToGroup s g d).2, none) ∧
      sendToTenantJSON s t marshalled =
        ((sendToTenant s t d).1, (sendToTenant s t d).2, none)) := by
  constructor
  · rintro e rfl
    exact ⟨rfl, rfl, rfl⟩
  · rintro d rfl
    exact ⟨rfl, rfl, rfl⟩

/-- Witness for C7: on an empty hub, a failed marshal comes back as the error
with count 0 and an untouched state, and a successful marshal defers to the
byte-message variant with a nil error. -/
theorem json_variants_spec_witness :
    sendToUserJSON (newHub fun _ => ⟨false, [], 2, 0, 0⟩) "u1" (.error "bad") =
      (newHub fun _ => ⟨false, [], 2, 0, 0⟩, 0, some "bad") ∧
    sendToGroupJSON (newHub fun _ => ⟨false, [], 2, 0, 0⟩) "g1" (.ok [7]) =
      ((sendToGroup (newHub fun _ => ⟨false, [], 2, 0, 0⟩) "g1" [7]).1,
       (sendToGroup (newHub fun _ => ⟨false, [], 2, 0, 0⟩) "g1" [7]).2, none) :=
  ⟨((json_variants_spec (newHub fun _ => ⟨false, [], 2, 0, 0⟩) "u1" "g1" "t1"
      (.error "bad")).1 "bad" rfl).1,
   ((json_variants_spec (newHub fun _ => ⟨false, [], 2, 0, 0⟩) "u1" "g1" "t1"
      (.ok [7])).2 [7] rfl).2.1⟩

/-! ## The plain send loop: exact count and heap effect -/

theorem sendAllLoop_untouched (msg : Msg) (L : List (String × Client)) :
    ∀ (h : Heap) (n : Nat) (c : Client), c ∉ L.map Prod.snd →
      (sendAllLoop msg L h n).1 c = h c := by
  induction L with
  | nil => intro h n c _; rfl
  | cons p rest ih =>
    intro h n c hc
    obtain ⟨i, cl⟩ := p
    simp only [List.map_cons, List.mem_cons] at hc
    push_neg at hc
    rcases hs : (h cl).send msg with ⟨m2, b⟩
    cases b
    · simp only [sendAllLoop, hs]
      exact ih _ _ c hc.2
    · simp only [sendAllLoop, hs]
      rw [ih _ _ c hc.2]
      exact hupdate_ne h cl c m2 hc.1

theorem sendAllLoop_spec (msg : Msg) (L : List (String × Client)) :
    ∀ (h : Heap) (n : Nat), (L.map Prod.snd).Nodup →
      ((sendAllLoop msg L h n).2 = n + L.countP (fun p => sendOK (h p.2)) ∧
       ∀ p ∈ L, (sendAllLoop msg L h n).1 p.2 = ((h p.2).send msg).1) := by
  induction L with
  | nil =>
    intro h n _
    exact ⟨rfl, by intro p hp; simp at hp⟩
  | cons q rest ih =>
    intro h n hnd
    obtain ⟨i, cl⟩ := q
    have hcl : cl ∉ rest.map Prod.snd := by
      simp only [List.map_cons, List.nodup_cons] at hnd
      exact hnd.1
    have hnd2 : (rest.map Prod.snd).Nodup := by
      simp only [List.map_cons, List.nodup_cons] at hnd
      exact hnd.2
    rcases hsp : (h cl).send msg with ⟨m2, b⟩
    have hb : sendOK (h cl) = b := by
      have hx := send_snd (h cl) msg
      rw [hsp] at hx
      exact hx.symm
    cases b
    · have hm2 : m2 = h cl := by
        have hx := send_fail_eq (h cl) msg hb
        rw [hsp] at hx
        injection hx with h1 _
      constructor
      · simp only [sendAllLoop, hsp]
        rw [(ih h n hnd2).1, List.countP_cons]
        simp [hb]
      · intro p hp
        rcases List.mem_cons.mp hp with hp1 | hp2
        · subst hp1
          simp only [sendAllLoop, hsp]
          rw [sendAllLoop_untouched msg rest h n cl hcl, hm2]
        · simp only [sendAllLoop, hsp]
          exact (ih h n hnd2).2 p hp2
    · constructor
      · simp only [sendAllLoop, hsp]
        rw [(ih (hupdate h cl m2) (n + 1) hnd2).1]
        have hcong :
            rest.countP (fun p => sendOK ((hupdate h cl m2) p.2)) =
            rest.countP (fun p => sendOK (h p.2)) := by
          refine List.countP_congr ?_
          intro p hp
          have hne : p.2 ≠ cl := by
            intro hcontra
            exact hcl (hcontra ▸ List.mem_map_of_mem Prod.snd hp)
          rw [hupdate_ne h cl p.2 _ hne]
        rw [hcong, List.countP_cons]
        simp [hb]
        omega
      · intro p hp
        rcases List.mem_cons.mp hp with hp1 | hp2
        · subst hp1
          simp only [sendAllLoop, hsp]
          rw [sendAllLoop_untouched msg rest _ (n + 1) cl hcl, hupdate_self]
        · simp only [sendAllLoop, hsp]
          have hne : p.2 ≠ cl := by
            intro hcontra
            exact hcl (hcontra ▸ List.mem_map_of_mem Prod.snd hp2)
          have hx := (ih (hupdate h cl m2) (n + 1) hnd2).2 p hp2
          rw [hupdate_ne h cl p.2 _ hne] at hx
          exact hx

/-! ## Claim theorem: SendToUser -/

/-- Claim C8: SendToUser attempts Send on every client registered under the
user and returns exactly the number of clients whose Send returned true (read
off the initial heap); the registry maps are unchanged, no other heap cell is
touched, and a user with no bucket yields 0 with nothing modified. -/
theorem sendToUser_spec (s : HubState) (u : String) (msg : Msg) :
    (mlookup u s.clients = none → sendToUser s u msg = (s, 0)) ∧
    (∀ uc, mlookup u s.clients = some uc → (uc.map Prod.snd).Nodup →
      ((sendToUser s u msg).2 = uc.countP (fun p => sendOK (s.heap p.2)) ∧
       (∀ p ∈ uc, (sendToUser s u msg).1.heap p.2 = ((s.heap p.2).send msg).1) ∧
       (∀ c, c ∉ uc.map Prod.snd → (sendToUser s u msg).1.heap c = s.heap c) ∧
       (sendToUser s u msg).1.clients = s.clients ∧
       (sendToUser s u msg).1.groups = s.groups)) := by
  constructor
  · intro h
    unfold sendToUser
    simp [h]
  · intro uc hlk hnd
    have hspec := sendAllLoop_spec msg uc s.heap 0 hnd
    have hred : sendToUser s u msg =
        ({ s with heap := (sendAllLoop msg uc s.heap 0).1 },
         (sendAllLoop msg uc s.heap 0).2) := by
      unfold sendToUser
      simp [hlk]
    rw [hred]
    refine ⟨?_, ?_, ?_, rfl, rfl⟩
    · show (sendAllLoop msg uc s.heap 0).2 = uc.countP (fun p => sendOK (s.heap p.2))
      rw [hspec.1, Nat.zero_add]
    · intro p hp
      show (sendAllLoop msg uc s.heap 0).1 p.2 = ((s.heap p.2).send msg).1
      exact hspec.2 p hp
    · intro c hc
      show (sendAllLoop msg uc s.heap 0).1 c = s.heap c
      exact sendAllLoop_untouched msg uc s.heap 0 c hc

/-- Witness for C8: a user with one open and one closed client gets a count of
one; the untouched user bucket of the other user is preserved. -/
theorem sendToUser_spec_witness :
    (sendToUser
      { clients := [("u1", [("c1", ⟨"c1", "u1", "t1"⟩), ("c2", ⟨"c2", "u1", "t1"⟩)])],
        groups := [],
        heap := fun c => if c.id = "c2" then ⟨true, [], 2, 1, 1⟩ else ⟨false, [], 2, 0, 0⟩ }
      "u1" [7]).2 =
      List.countP
        (fun p =>
          sendOK
            ((fun c : Client =>
              if c.id = "c2" then (⟨true, [], 2, 1, 1⟩ : ClientMem) else ⟨false, [], 2, 0, 0⟩)
              p.2))
        [("c1", ⟨"c1", "u1", "t1"⟩), ("c2", ⟨"c2", "u1", "t1"⟩)] ∧
    (sendToUser (newHub fun _ => ⟨false, [], 2, 0, 0⟩) "u9" [7]) =
      (newHub fun _ => ⟨false, [], 2, 0, 0⟩, 0) :=
  ⟨((sendToUser_spec
      { clients := [("u1", [("c1", ⟨"c1", "u1", "t1"⟩), ("c2", ⟨"c2", "u1", "t1"⟩)])],
        groups := [],
        heap := fun c => if c.id = "c2" then ⟨true, [], 2, 1, 1⟩ else ⟨false, [], 2, 0, 0⟩ }
      "u1" [7]).2 [("c1", ⟨"c1", "u1", "t1"⟩), ("c2", ⟨"c2", "u1", "t1"⟩)] rfl
      (by decide)).1,
   (sendToUser_spec (newHub fun _ => ⟨false, [], 2, 0, 0⟩) "u9" [7]).1 rfl⟩

/-! ## Unregister: group removal lemmas -/

theorem groupsRemoveClient_lookup_none (uid cid g : String) (gs : Map GroupUsers) :
    mlookup cid
      ((mlookup uid ((mlookup g (groupsRemoveClient uid cid gs)).getD [])).getD []) =
      none := by
  induction gs with
  | nil => rfl
  | cons p rest ih =>
    obtain ⟨g0, gu⟩ := p
    rcases hu : mlookup uid gu with _ | uc
    · by_cases hg : g0 = g
      · subst hg
        simp only [groupsRemoveClient, hu, mlookup_cons, if_pos rfl]
        simp [hu]
      · simp only [groupsRemoveClient, hu, mlookup_cons, if_neg hg]
        exact ih
    · cases hue : (meraseKey cid uc).isEmpty with
      | true =>
        by_cases hemp : (meraseKey uid gu).isEmpty
        · simp only [groupsRemoveClient, hu, hue, if_true, hemp]
          exact ih
        · simp only [groupsRemoveClient, hu, hue, if_true,
            Bool.not_eq_true] at hemp ⊢
          rw [if_neg (by simp [hemp])]
          by_cases hg : g0 = g
          · subst hg
            rw [mlookup_cons, if_pos rfl]
            simp [mlookup_meraseKey_self]
          · rw [mlookup_cons, if_neg hg]
            exact ih
      | false =>
        simp only [groupsRemoveClient, hu, hue, if_false]
        rw [if_neg (by simp [minsert])]
        by_cases hg : g0 = g
        · subst hg
          rw [mlookup_cons, if_pos rfl]
          simp [mlookup_minsert_self, mlookup_meraseKey_self]
        · rw [mlookup_cons, if_neg hg]
          exact ih

theorem unregisterClient_groups (s : HubState) (c : Client) :
    (unregisterClient s c).groups = groupsRemoveClient c.userID c.id s.groups := by
  unfold unregisterClient
  rcases hu : mlookup c.userID s.clients with _ | uc
  · simp [hu]
  · rcases hc : mlookup c.id uc with _ | c2 <;> simp [hu, hc]

theorem unregisterClient_getClient_self (s : HubState) (c : Client) :
    getClient (unregisterClient s c) c.userID c.id = none := by
  unfold getClient unregisterClient
  rcases hu : mlookup c.userID s.clients with _ | uc
  · simp [hu]
  · rcases hc : mlookup c.id uc with _ | c2
    · simp [hu, hc]
    · simp only [hu, hc]
      by_cases hemp : (meraseKey c.id uc).isEmpty
      · simp [hemp, mlookup_meraseKey_self]
      · simp [hemp, mlookup_minsert_self, mlookup_meraseKey_self]

/-! ## Claim theorem: Unregister closes exactly the bound client -/

/-- Claim C10: processing Unregister for a client whose UserID and ID are bound
in clients closes that client — a later Send on it fails — in addition to
removing it from clients and from every group entry; when the binding is
absent the heap is left untouched, so the client is not closed. -/
theorem unregister_close_spec (s : HubState) (c : Client) (msg : Msg) :
    (getClient s c.userID c.id = none → (unregisterClient s c).heap = s.heap) ∧
    (∀ c2, getClient s c.userID c.id = some c2 →
      (((unregisterClient s c).heap c).isClosed = true ∧
       ((unregisterClient s c).heap c).send msg = ((unregisterClient s c).heap c, false) ∧
       getClient (unregisterClient s c) c.userID c.id = none ∧
       (∀ g, groupLookup (unregisterClient s c) g c.userID c.id = none))) := by
  constructor
  · exact unregisterClient_heap_of_none s c
  · intro c2 h2
    have hh := unregisterClient_heap_of_some s c c2 h2
    have hcl : ((unregisterClient s c).heap c).isClosed = true := by
      rw [hh, hupdate_self]
      exact close_isClosed _
    refine ⟨hcl, ?_, unregisterClient_getClient_self s c, ?_⟩
    · unfold ClientMem.send
      simp [hcl]
    · intro g
      unfold groupLookup
      rw [unregisterClient_groups]
      exact groupsRemoveClient_lookup_none c.userID c.id g s.groups

/-- Witness for C10: unregistering an unknown client leaves the heap alone;
unregistering a registered, group-joined client closes it and removes it from
the registry and the group. -/
theorem unregister_close_spec_witness :
    (unregisterClient (newHub fun _ => ⟨false, [], 2, 0, 0⟩) ⟨"c1", "u1", "t1"⟩).heap =
      (newHub fun _ => ⟨false, [], 2, 0, 0⟩).heap ∧
    ((unregisterClient
        (joinGroup (registerClient (newHub fun _ => ⟨false, [], 2, 0, 0⟩)
          ⟨"c1", "u1", "t1"⟩) "g1" ⟨"c1", "u1", "t1"⟩)
        ⟨"c1", "u1", "t1"⟩).heap ⟨"c1", "u1", "t1"⟩).isClosed = true ∧
    getClient
      (unregisterClient
        (joinGroup (registerClient (newHub fun _ => ⟨false, [], 2, 0, 0⟩)
          ⟨"c1", "u1", "t1"⟩) "g1" ⟨"c1", "u1", "t1"⟩)
        ⟨"c1", "u1", "t1"⟩) "u1" "c1" = none ∧
    groupLookup
      (unregisterClient
        (joinGroup (registerClient (newHub fun _ => ⟨false, [], 2, 0, 0⟩)
          ⟨"c1", "u1", "t1"⟩) "g1" ⟨"c1", "u1", "t1"⟩)
        ⟨"c1", "u1", "t1"⟩) "g1" "u1" "c1" = none :=
  ⟨(unregister_close_spec (newHub fun _ => ⟨false, [], 2, 0, 0⟩) ⟨"c1", "u1", "t1"⟩ [7]).1
      rfl,
   ((unregister_close_spec
      (joinGroup (registerClient (newHub fun _ => ⟨false, [], 2, 0, 0⟩)
        ⟨"c1", "u1", "t1"⟩) "g1" ⟨"c1", "u1", "t1"⟩)
      ⟨"c1", "u1", "t1"⟩ [7]).2 ⟨"c1", "u1", "t1"⟩ (by decide)).1,
   ((unregister_close_spec
      (joinGroup (registerClient (newHub fun _ => ⟨false, [], 2, 0, 0⟩)
        ⟨"c1", "u1", "t1"⟩) "g1" ⟨"c1", "u1", "t1"⟩)
      ⟨"c1", "u1", "t1"⟩ [7]).2 ⟨"c1", "u1", "t1"⟩ (by decide)).2.2.1,
   ((unregister_close_spec
      (joinGroup (registerClient (newHub fun _ => ⟨false, [], 2, 0, 0⟩)
        ⟨"c1", "u1", "t1"⟩) "g1" ⟨"c1", "u1", "t1"⟩)
      ⟨"c1", "u1", "t1"⟩ [7]).2 ⟨"c1", "u1", "t1"⟩ (by decide)).2.2.2 "g1"⟩

/-! ## DisconnectUser: group removal lemmas -/

theorem mlookup_eq_none_of_not_mem_keys {β : Type} (k : String) (l : Map β)
    (h : k ∉ l.map Prod.fst) : mlookup k l = none := by
  induction l with
  | nil => rfl
  | cons p rest ih =>
    obtain ⟨k2, v⟩ := p
    simp only [List.map_cons, List.mem_cons] at h
    push_neg at h
    rw [mlookup_cons, if_neg (fun hh => h.1 hh.symm)]
    exact ih h.2

theorem groupsRemoveUser_lookup_none_mono (u g : String) (gs : Map GroupUsers)
    (h : mlookup g gs = none) : mlookup g (groupsRemoveUser u gs) = none := by
  induction gs with
  | nil => rfl
  | cons p rest ih =>
    obtain ⟨g0, gu⟩ := p
    rw [mlookup_cons] at h
    by_cases hg : g0 = g
    · rw [if_pos hg] at h
      exact Option.noConfusion h
    · rw [if_neg hg] at h
      unfold groupsRemoveUser
      by_cases hemp : (meraseKey u gu).isEmpty
      · rw [if_pos hemp]
        exact ih h
      · rw [if_neg hemp, mlookup_cons, if_neg hg]
        exact ih h

theorem groupsRemoveUser_lookup (u g : String) (gs : Map GroupUsers) :
    ∀ gu2, mlookup g (groupsRemoveUser u gs) = some gu2 →
      mlookup u gu2 = none ∧ gu2.isEmpty = false := by
  induction gs with
  | nil => intro gu2 h; exact Option.noConfusion h
  | cons p rest ih =>
    obtain ⟨g0, gu⟩ := p
    intro gu2 h
    unfold groupsRemoveUser at h
    by_cases hemp : (meraseKey u gu).isEmpty
    · rw [if_pos hemp] at h
      exact ih gu2 h
    · rw [if_neg hemp, mlookup_cons] at h
      by_cases hg : g0 = g
      · rw [if_pos hg] at h
        injection h with h
        subst h
        exact ⟨mlookup_meraseKey_self u gu, by simpa using hemp⟩
      · rw [if_neg hg] at h
        exact ih gu2 h

theorem groupsRemoveUser_lookup_other (u u2 g : String) (gs : Map GroupUsers)
    (hnd : KeysNodup gs) (hne : u2 ≠ u) :
    mlookup u2 ((mlookup g (groupsRemoveUser u gs)).getD []) =
    mlookup u2 ((mlookup g gs).getD []) := by
  induction gs with
  | nil => rfl
  | cons p rest ih =>
    obtain ⟨g0, gu⟩ := p
    have hkey : g0 ∉ rest.map Prod.fst := by
      simp only [KeysNodup, List.map_cons, List.nodup_cons] at hnd
      exact hnd.1
    have hnd2 : KeysNodup rest := by
      simp only [KeysNodup, List.map_cons, List.nodup_cons] at hnd
      exact hnd.2
    by_cases hemp : (meraseKey u gu).isEmpty
    · unfold groupsRemoveUser
      rw [if_pos hemp]
      by_cases hg : g0 = g
      · subst hg
        rw [mlookup_cons, if_pos rfl,
          groupsRemoveUser_lookup_none_mono u g0 rest
            (mlookup_eq_none_of_not_mem_keys g0 rest hkey)]
        simp only [Option.getD_some, Option.getD_none, mlookup_nil]
        rw [mlookup_none_of_meraseKey_empty u u2 gu hemp hne]
      · rw [mlookup_cons, if_neg hg]
        exact ih hnd2
    · unfold groupsRemoveUser
      rw [if_neg hemp]
      by_cases hg : g0 = g
      · rw [mlookup_cons, if_pos hg, mlookup_cons, if_pos hg]
        simp only [Option.getD_some]
        exact mlookup_meraseKey_ne u u2 gu hne
      · rw [mlookup_cons, if_neg hg, mlookup_cons, if_neg hg]
        exact ih hnd2

theorem disconnectUser_groups (s : HubState) (u : String) :
    (disconnectUser s u).groups = groupsRemoveUser u s.groups := by
  unfold disconnectUser
  rcases hu : mlookup u s.clients with _ | uc <;> simp [hu]

/-! ## Claim theorem: DisconnectUser -/

/-- Claim C4: after DisconnectUser every client registered under the user is
closed, HasActiveConnection is false, the user bucket is gone from clients,
the user is gone from every surviving group and emptied groups are pruned;
registry entries and heap cells of other users are untouched. -/
theorem disconnectUser_spec (s : HubState) (u u2 g cid : String)
    (hnd : KeysNodup s.groups) :
    hasActiveConnection (disconnectUser s u) u = false ∧
    mlookup u (disconnectUser s u).clients = none ∧
    (∀ uc, mlookup u s.clients = some uc →
      ∀ p ∈ uc, ((disconnectUser s u).heap p.2).isClosed = true) ∧
    (∀ gu2, mlookup g (disconnectUser s u).groups = some gu2 →
      mlookup u gu2 = none ∧ gu2.isEmpty = false) ∧
    (∀ uc, mlookup u s.clients = some uc →
      ∀ c2, c2 ∉ uc.map Prod.snd → (disconnectUser s u).heap c2 = s.heap c2) ∧
    (mlookup u s.clients = none → (disconnectUser s u).heap = s.heap) ∧
    (u2 ≠ u → mlookup u2 (disconnectUser s u).clients = mlookup u2 s.clients) ∧
    (u2 ≠ u → groupLookup (disconnectUser s u) g u2 cid = groupLookup s g u2 cid) := by
  have hclients : mlookup u (disconnectUser s u).clients = none := by
    unfold disconnectUser
    rcases hu : mlookup u s.clients with _ | uc
    · simp [hu]
    · simp [hu, mlookup_meraseKey_self]
  refine ⟨?_, hclients, ?_, ?_, ?_, ?_, ?_, ?_⟩
  · unfold hasActiveConnection
    rw [hclients]
  · intro uc hu p hp
    have hheap : (disconnectUser s u).heap = closeAllLoop uc s.heap := by
      unfold disconnectUser
      simp [hu]
    rw [hheap]
    exact closeAllLoop_mem uc s.heap p.2 (List.mem_map_of_mem Prod.snd hp)
  · intro gu2 h2
    rw [disconnectUser_groups] at h2
    exact groupsRemoveUser_lookup u g s.groups gu2 h2
  · intro uc hu c2 hc2
    have hheap : (disconnectUser s u).heap = closeAllLoop uc s.heap := by
      unfold disconnectUser
      simp [hu]
    rw [hheap]
    exact closeAllLoop_not_mem uc s.heap c2 hc2
  · intro hu
    unfold disconnectUser
    simp [hu]
  · intro hne
    unfold disconnectUser
    rcases hu : mlookup u s.clients with _ | uc
    · simp [hu]
    · simp only [hu]
      exact mlookup_meraseKey_ne u u2 s.clients hne
  · intro hne
    unfold groupLookup
    rw [disconnectUser_groups,
      groupsRemoveUser_lookup_other u u2 g s.groups hnd hne]

/-- Witness for C4: two users sharing group g1 and user u1 alone in g2; after
DisconnectUser u1 the u1 client is closed, u1 is gone from clients and from
g1, g2 is pruned, and u2 is untouched in both maps. -/
theorem disconnectUser_spec_witness :
    hasActiveConnection
      (disconnectUser
        { clients := [("u1", [("c1", ⟨"c1", "u1", "t1"⟩)]),
                      ("u2", [("c2", ⟨"c2", "u2", "t1"⟩)])],
          groups := [("g1", [("u1", [("c1", ⟨"c1", "u1", "t1"⟩)]),
                             ("u2", [("c2", ⟨"c2", "u2", "t1"⟩)])]),
                     ("g2", [("u1", [("c1", ⟨"c1", "u1", "t1"⟩)])])],
          heap := fun _ => ⟨false, [], 2, 0, 0⟩ } "u1") "u1" = false ∧
    ((disconnectUser
        { clients := [("u1", [("c1", ⟨"c1", "u1", "t1"⟩)]),
                      ("u2", [("c2", ⟨"c2", "u2", "t1"⟩)])],
          groups := [("g1", [("u1", [("c1", ⟨"c1", "u1", "t1"⟩)]),
                             ("u2", [("c2", ⟨"c2", "u2", "t1"⟩)])]),
                     ("g2", [("u1", [("c1", ⟨"c1", "u1", "t1"⟩)])])],
          heap := fun _ => ⟨false, [], 2, 0, 0⟩ } "u1").heap
      ⟨"c1", "u1", "t1"⟩).isClosed = true ∧
    (mlookup "u1"
      [("u2", [("c2", (⟨"c2", "u2", "t1"⟩ : Client))])] = none ∧
     List.isEmpty [("u2", [("c2", (⟨"c2", "u2", "t1"⟩ : Client))])] = false) ∧
    mlookup "u2"
      (disconnectUser
        { clients := [("u1", [("c1", ⟨"c1", "u1", "t1"⟩)]),
                      ("u2", [("c2", ⟨"c2", "u2", "t1"⟩)])],
          groups := [("g1", [("u1", [("c1", ⟨"c1", "u1", "t1"⟩)]),
                             ("u2", [("c2", ⟨"c2", "u2", "t1"⟩)])]),
                     ("g2", [("u1", [("c1", ⟨"c1", "u1", "t1"⟩)])])],
          heap := fun _ => ⟨false, [], 2, 0, 0⟩ } "u1").clients =
      mlookup "u2"
        [("u1", [("c1", (⟨"c1", "u1", "t1"⟩ : Client))]),
         ("u2", [("c2", (⟨"c2", "u2", "t1"⟩ : Client))])] :=
  ⟨(disconnectUser_spec
      { clients := [("u1", [("c1", ⟨"c1", "u1", "t1"⟩)]),
                    ("u2", [("c2", ⟨"c2", "u2", "t1"⟩)])],
        groups := [("g1", [("u1", [("c1", ⟨"c1", "u1", "t1"⟩)]),
                           ("u2", [("c2", ⟨"c2", "u2", "t1"⟩)])]),
                   ("g2", [("u1", [("c1", ⟨"c1", "u1", "t1"⟩)])])],
        heap := fun _ => ⟨false, [], 2, 0, 0⟩ } "u1" "u2" "g1" "c2" (by decide)).1,
   (disconnectUser_spec
      { clients := [("u1", [("c1", ⟨"c1", "u1", "t1"⟩)]),
                    ("u2", [("c2", ⟨"c2", "u2", "t1"⟩)])],
        groups := [("g1", [("u1", [("c1", ⟨"c1", "u1", "t1"⟩)]),
                           ("u2", [("c2", ⟨"c2", "u2", "t1"⟩)])]),
                   ("g2", [("u1", [("c1", ⟨"c1", "u1", "t1"⟩)])])],
        heap := fun _ => ⟨false, [], 2, 0, 0⟩ } "u1" "u2" "g1" "c2"
      (by decide)).2.2.1 [("c1", ⟨"c1", "u1", "t1"⟩)] rfl ("c1", ⟨"c1", "u1", "t1"⟩)
      (by decide),
   (disconnectUser_spec
      { clients := [("u1", [("c1", ⟨"c1", "u1", "t1"⟩)]),
                    ("u2", [("c2", ⟨"c2", "u2", "t1"⟩)])],
        groups := [("g1", [("u1", [("c1", ⟨"c1", "u1", "t1"⟩)]),
                           ("u2", [("c2", ⟨"c2", "u2", "t1"⟩)])]),
                   ("g2", [("u1", [("c1", ⟨"c1", "u1", "t1"⟩)])])],
        heap := fun _ => ⟨false, [], 2, 0, 0⟩ } "u1" "u2" "g1" "c2"
      (by decide)).2.2.2.1 [("u2", [("c2", ⟨"c2", "u2", "t1"⟩)])] (by decide),
   (disconnectUser_spec
      { clients := [("u1", [("c1", ⟨"c1", "u1", "t1"⟩)]),
                    ("u2", [("c2", ⟨"c2", "u2", "t1"⟩)])],
        groups := [("g1", [("u1", [("c1", ⟨"c1", "u1", "t1"⟩)]),
                           ("u2", [("c2", ⟨"c2", "u2", "t1"⟩)])]),
                   ("g2", [("u1", [("c1", ⟨"c1", "u1", "t1"⟩)])])],
        heap := fun _ => ⟨false, [], 2, 0, 0⟩ } "u1" "u2" "g1" "c2"
      (by decide)).2.2.2.2.2.2.1 (by decide)⟩

/-! ## Lookup preservation lemmas for the registry invariant -/

theorem registerClient_getClient_none (s : HubState) (c : Client) (u i : String)
    (h : getClient (registerClient s c) u i = none) : getClient s u i = none := by
  unfold getClient at h ⊢
  unfold registerClient at h
  by_cases huu : u = c.userID
  · subst huu
    simp only [mlookup_minsert_self] at h
    by_cases hii : i = c.id
    · subst hii
      simp only [mlookup_minsert_self] at h
      exact Option.noConfusion h
    · rw [mlookup_minsert_ne c.id i c _ hii] at h
      rcases hu : mlookup c.userID s.clients with _ | uc0
      · simp [hu]
      · simp only [hu, Option.getD_some] at h
        simp only [hu]
        exact h
  · rw [mlookup_minsert_ne c.userID u _ s.clients huu] at h
    exact h

theorem unregisterClient_getClient_other (s : HubState) (c : Client) (u i : String)
    (hne : ¬(u = c.userID ∧ i = c.id)) :
    getClient (unregisterClient s c) u i = getClient s u i := by
  unfold getClient unregisterClient
  rcases hu : mlookup c.userID s.clients with _ | uc
  · simp [hu]
  · rcases hc : mlookup c.id uc with _ | c2
    · simp [hu, hc]
    · simp only [hu, hc]
      by_cases hemp : (meraseKey c.id uc).isEmpty
      · simp only [hemp, if_true]
        by_cases huu : u = c.userID
        · subst huu
          simp only [mlookup_meraseKey_self, hu]
          exact (mlookup_none_of_meraseKey_empty c.id i uc hemp
            (fun hh => hne ⟨rfl, hh⟩)).symm
        · rw [mlookup_meraseKey_ne c.userID u s.clients huu]
      · simp only [hemp, if_false, Bool.false_eq_true]
        by_cases huu : u = c.userID
        · subst huu
          simp only [mlookup_minsert_self, hu]
          exact mlookup_meraseKey_ne c.id i uc (fun hh => hne ⟨rfl, hh⟩)
        · rw [mlookup_minsert_ne c.userID u _ s.clients huu]

theorem leaveGroup_clients (s : HubState) (g : String) (c : Client) :
    (leaveGroup s g c).clients = s.clients := by
  unfold leaveGroup
  rcases hg : mlookup g s.groups with _ | gu <;> simp [hg]

theorem joinGroup_clients (s : HubState) (g : String) (c : Client) :
    (joinGroup s g c).clients = s.clients := rfl

theorem registerClient_groups (s : HubState) (c : Client) :
    (registerClient s c).groups = s.groups := rfl

theorem leaveGroup_groupLookup_some (s : HubState) (g : String) (c : Client)
    (g2 u i : String) (x : Client)
    (h : groupLookup (leaveGroup s g c) g2 u i = some x) :
    groupLookup s g2 u i = some x := by
  unfold groupLookup at h ⊢
  unfold leaveGroup at h
  rcases hg : mlookup g s.groups with _ | gu
  · simp only [hg] at h
    exact h
  · simp only [hg] at h
    rcases hcu : mlookup c.userID gu with _ | uc
    · simp only [hcu] at h
      by_cases hemp : gu.isEmpty
      · rw [if_pos hemp] at h
        by_cases hgg : g2 = g
        · subst hgg
          rw [mlookup_meraseKey_self] at h
          simp only [Option.getD_none, mlookup_nil] at h
          exact Option.noConfusion h
        · rw [mlookup_meraseKey_ne g g2 s.groups hgg] at h
          exact h
      · rw [if_neg hemp] at h
        by_cases hgg : g2 = g
        · subst hgg
          rw [mlookup_minsert_self] at h
          rw [hg]
          exact h
        · rw [mlookup_minsert_ne g g2 _ s.groups hgg] at h
          exact h
    · simp only [hcu] at h
      by_cases hue : (meraseKey c.id uc).isEmpty
      · rw [if_pos hue] at h
        by_cases hemp : (meraseKey c.userID gu).isEmpty
        · rw [if_pos hemp] at h
          by_cases hgg : g2 = g
          · subst hgg
            rw [mlookup_meraseKey_self] at h
            simp only [Option.getD_none, mlookup_nil] at h
            exact Option.noConfusion h
          · rw [mlookup_meraseKey_ne g g2 s.groups hgg] at h
            exact h
        · rw [if_neg hemp] at h
          by_cases hgg : g2 = g
          · subst hgg
            rw [mlookup_minsert_self] at h
            simp only [Option.getD_some] at h
            by_cases huu : u = c.userID
            · subst huu
              rw [mlookup_meraseKey_self] at h
              simp only [Option.getD_none, mlookup_nil] at h
              exact Option.noConfusion h
            · rw [mlookup_meraseKey_ne c.userID u gu huu] at h
              rw [hg]
              exact h
          · rw [mlookup_minsert_ne g g2 _ s.groups hgg] at h
            exact h
      · rw [if_neg hue, if_neg (by simp [minsert])] at h
        by_cases hgg : g2 = g
        · subst hgg
          rw [mlookup_minsert_self] at h
          simp only [Option.getD_some] at h
          by_cases huu : u = c.userID
          · subst huu
            rw [mlookup_minsert_self] at h
            simp only [Option.getD_some] at h
            by_cases hii : i = c.id
            · subst hii
              rw [mlookup_meraseKey_self] at h
              exact Option.noConfusion h
            · rw [mlookup_meraseKey_ne c.id i uc hii] at h
              rw [hg]
              simp only [Option.getD_some, hcu]
              exact h
          · rw [mlookup_minsert_ne c.userID u _ gu huu] at h
            rw [hg]
            exact h
        · rw [mlookup_minsert_ne g g2 _ s.groups hgg] at h
          exact h

theorem groupsRemoveClient_lookup_none_mono (uid cid g : String) (gs : Map GroupUsers)
    (h : mlookup g gs = none) : mlookup g (groupsRemoveClient uid cid gs) = none := by
  induction gs with
  | nil => rfl
  | cons p rest ih =>
    obtain ⟨g0, gu⟩ := p
    rw [mlookup_cons] at h
    by_cases hg : g0 = g
    · rw [if_pos hg] at h
      exact Option.noConfusion h
    · rw [if_neg hg] at h
      rcases hu : mlookup uid gu with _ | uc
      · simp only [groupsRemoveClient, hu, mlookup_cons, if_neg hg]
        exact ih h
      · simp only [groupsRemoveClient, hu]
        by_cases hue : (meraseKey cid uc).isEmpty
        · rw [if_pos hue]
          by_cases hemp : (meraseKey uid gu).isEmpty
          · rw [if_pos hemp]
            exact ih h
          · rw [if_neg hemp, mlookup_cons, if_neg hg]
            exact ih h
        · rw [if_neg hue, if_neg (by simp [minsert]), mlookup_cons, if_neg hg]
          exact ih h

theorem groupsRemoveClient_lookup_other (uid cid u i g : String) (gs : Map GroupUsers)
    (hnd : KeysNodup gs) (hne : ¬(u = uid ∧ i = cid)) :
    mlookup i
      ((mlookup u ((mlookup g (groupsRemoveClient uid cid gs)).getD [])).getD []) =
    mlookup i ((mlookup u ((mlookup g gs).getD [])).getD []) := by
  induction gs with
  | nil => rfl
  | cons p rest ih =>
    obtain ⟨g0, gu⟩ := p
    have hkey : g0 ∉ rest.map Prod.fst := by
      simp only [KeysNodup, List.map_cons, List.nodup_cons] at hnd
      exact hnd.1
    have hnd2 : KeysNodup rest := by
      simp only [KeysNodup, List.map_cons, List.nodup_cons] at hnd
      exact hnd.2
    rcases hu0 : mlookup uid gu with _ | uc
    · simp only [groupsRemoveClient, hu0]
      by_cases hg : g0 = g
      · rw [mlookup_cons, if_pos hg, mlookup_cons, if_pos hg]
      · rw [mlookup_cons, if_neg hg, mlookup_cons, if_neg hg]
        exact ih hnd2
    · simp only [groupsRemoveClient, hu0]
      by_cases hue : (meraseKey cid uc).isEmpty
      · rw [if_pos hue]
        by_cases hemp : (meraseKey uid gu).isEmpty
        · rw [if_pos hemp]
          by_cases hg : g0 = g
          · subst hg
            rw [groupsRemoveClient_lookup_none_mono uid cid g0 rest
                (mlookup_eq_none_of_not_mem_keys g0 rest hkey),
              mlookup_cons, if_pos rfl]
            simp only [Option.getD_none, Option.getD_some, mlookup_nil]
            by_cases huu : u = uid
            · subst huu
              rw [hu0]
              simp only [Option.getD_some]
              have hii : i ≠ cid := fun hh => hne ⟨rfl, hh⟩
              exact (mlookup_none_of_meraseKey_empty cid i uc hue hii).symm
            · rw [mlookup_none_of_meraseKey_empty uid u gu hemp huu]
              rfl
          · rw [mlookup_cons, if_neg hg]
            exact ih hnd2
        · rw [if_neg hemp]
          by_cases hg : g0 = g
          · subst hg
            rw [mlookup_cons, if_pos rfl, mlookup_cons, if_pos rfl]
            simp only [Option.getD_some]
            by_cases huu : u = uid
            · subst huu
              rw [mlookup_meraseKey_self, hu0]
              simp only [Option.getD_none, Option.getD_some, mlookup_nil]
              have hii : i ≠ cid := fun hh => hne ⟨rfl, hh⟩
              exact (mlookup_none_of_meraseKey_empty cid i uc hue hii).symm
            · rw [mlookup_meraseKey_ne uid u gu huu]
          · rw [mlookup_cons, if_neg hg, mlookup_cons, if_neg hg]
            exact ih hnd2
      · rw [if_neg hue, if_neg (by simp [minsert])]
        by_cases hg : g0 = g
        · subst hg
          rw [mlookup_cons, if_pos rfl, mlookup_cons, if_pos rfl]
          simp only [Option.getD_some]
          by_cases huu : u = uid
          · subst huu
            rw [mlookup_minsert_self, hu0]
            simp only [Option.getD_some]
            have hii : i ≠ cid := fun hh => hne ⟨rfl, hh⟩
            exact mlookup_meraseKey_ne cid i uc hii
          · rw [mlookup_minsert_ne uid u _ gu huu]
        · rw [mlookup_cons, if_neg hg, mlookup_cons, if_neg hg]
          exact ih hnd2

theorem disconnectUser_getClient_other (s : HubState) (u0 u i : String)
    (hne : u ≠ u0) : getClient (disconnectUser s u0) u i = getClient s u i := by
  unfold getClient disconnectUser
  rcases hu : mlookup u0 s.clients with _ | uc
  · simp [hu]
  · simp only [hu]
    rw [mlookup_meraseKey_ne u0 u s.clients hne]

theorem groupsRemoveUser_triple_none (u cid g : String) (gs : Map GroupUsers) :
    mlookup cid
      ((mlookup u ((mlookup g (groupsRemoveUser u gs)).getD [])).getD []) = none := by
  rcases h : mlookup g (groupsRemoveUser u gs) with _ | gu2
  · rfl
  · simp only [Option.getD_some]
    rw [(groupsRemoveUser_lookup u g gs gu2 h).1]
    rfl

theorem joinGroup_groupLookup_other (s : HubState) (g : String) (c : Client)
    (g2 u i : String) (hne : ¬(u = c.userID ∧ i = c.id)) :
    groupLookup (joinGroup s g c) g2 u i = groupLookup s g2 u i := by
  unfold groupLookup joinGroup
  by_cases hgg : g2 = g
  · subst hgg
    rw [mlookup_minsert_self]
    simp only [Option.getD_some]
    by_cases huu : u = c.userID
    · subst huu
      rw [mlookup_minsert_self]
      simp only [Option.getD_some]
      have hii : i ≠ c.id := fun hh => hne ⟨rfl, hh⟩
      rw [mlookup_minsert_ne c.id i c _ hii]
    · rw [mlookup_minsert_ne c.userID u _ _ huu]
  · rw [mlookup_minsert_ne g g2 _ s.groups (fun hh => hgg hh)]

/-! ## Claim C1: the registry invariant -/

/-- The invariant claimed by the spec: a UserID and clientID pair that is
absent from clients is absent from every groups entry. -/
def HubInv (s : HubState) : Prop :=
  ∀ u i, getClient s u i = none → ∀ g, groupLookup s g u i = none

/-- Counterexample to claim C1 as stated: starting from the empty hub (which
satisfies the invariant), JoinGroup with a client that is not in clients
yields a state where the client is in the group yet absent from clients, so
JoinGroup does not preserve the invariant for unregistered clients. -/
theorem joinGroup_inv_counterexample :
    HubInv (newHub fun _ => ⟨false, [], 2, 0, 0⟩) ∧
    getClient (joinGroup (newHub fun _ => ⟨false, [], 2, 0, 0⟩) "g1" ⟨"c1", "u1", "t1"⟩)
      "u1" "c1" = none ∧
    groupLookup (joinGroup (newHub fun _ => ⟨false, [], 2, 0, 0⟩) "g1" ⟨"c1", "u1", "t1"⟩)
      "g1" "u1" "c1" = some ⟨"c1", "u1", "t1"⟩ ∧
    ¬ HubInv (joinGroup (newHub fun _ => ⟨false, [], 2, 0, 0⟩) "g1" ⟨"c1", "u1", "t1"⟩) := by
  refine ⟨fun u i _ g => rfl, by decide, by decide, ?_⟩
  intro hInv
  have h1 := hInv "u1" "c1" (by decide) "g1"
  exact absurd h1 (by decide)

/-- Claim C1 (amended): the invariant is preserved by Register and Unregister
processing, LeaveGroup and DisconnectUser, and by JoinGroup when the client's
UserID and ID are bound in clients; JoinGroup called with an unregistered
client violates it (see the counterexample). -/
theorem hub_inv_preservation (s : HubState) (c : Client) (g u0 : String)
    (hinv : HubInv s) (hnd : KeysNodup s.groups) :
    HubInv (registerClient s c) ∧
    HubInv (unregisterClient s c) ∧
    HubInv (leaveGroup s g c) ∧
    HubInv (disconnectUser s u0) ∧
    (getClient s c.userID c.id ≠ none → HubInv (joinGroup s g c)) := by
  refine ⟨?_, ?_, ?_, ?_, ?_⟩
  · intro u i hafter g2
    exact hinv u i (registerClient_getClient_none s c u i hafter) g2
  · intro u i hafter g2
    by_cases hkey : u = c.userID ∧ i = c.id
    · obtain ⟨h1, h2⟩ := hkey
      subst h1
      subst h2
      unfold groupLookup
      rw [unregisterClient_groups]
      exact groupsRemoveClient_lookup_none c.userID c.id g2 s.groups
    · have hbefore : getClient s u i = none := by
        rw [← unregisterClient_getClient_other s c u i hkey]
        exact hafter
      have hgl : groupLookup (unregisterClient s c) g2 u i = groupLookup s g2 u i := by
        unfold groupLookup
        rw [unregisterClient_groups]
        exact groupsRemoveClient_lookup_other c.userID c.id u i g2 s.groups hnd hkey
      rw [hgl]
      exact hinv u i hbefore g2
  · intro u i hafter g2
    have hbefore : getClient s u i = none := by
      have hcl : getClient (leaveGroup s g c) u i = getClient s u i := by
        unfold getClient
        rw [leaveGroup_clients]
      rw [← hcl]
      exact hafter
    rcases hres : groupLookup (leaveGroup s g c) g2 u i with _ | x
    · rfl
    · have hx := leaveGroup_groupLookup_some s g c g2 u i x hres
      rw [hinv u i hbefore g2] at hx
      exact Option.noConfusion hx
  · intro u i hafter g2
    by_cases huu : u = u0
    · subst huu
      unfold groupLookup
      rw [disconnectUser_groups]
      exact groupsRemoveUser_triple_none u i g2 s.groups
    · have hbefore : getClient s u i = none := by
        rw [← disconnectUser_getClient_other s u0 u i huu]
        exact hafter
      have hgl : groupLookup (disconnectUser s u0) g2 u i = groupLookup s g2 u i := by
        unfold groupLookup
        rw [disconnectUser_groups,
          groupsRemoveUser_lookup_other u0 u g2 s.groups hnd huu]
      rw [hgl]
      exact hinv u i hbefore g2
  · intro hpresent u i hafter g2
    have hbefore : getClient s u i = none := hafter
    by_cases hkey : u = c.userID ∧ i = c.id
    · obtain ⟨h1, h2⟩ := hkey
      subst h1
      subst h2
      exact absurd hbefore hpresent
    · rw [joinGroup_groupLookup_other s g c g2 u i hkey]
      exact hinv u i hbefore g2

/-- Witness for the amended C1 on a hub holding one registered client: the
invariant survives Unregister processing and JoinGroup of the registered
client. -/
theorem hub_inv_preservation_witness :
    HubInv (unregisterClient
      (registerClient (newHub fun _ => ⟨false, [], 2, 0, 0⟩) ⟨"c1", "u1", "t1"⟩)
      ⟨"c1", "u1", "t1"⟩) ∧
    HubInv (joinGroup
      (registerClient (newHub fun _ => ⟨false, [], 2, 0, 0⟩) ⟨"c1", "u1", "t1"⟩)
      "g1" ⟨"c1", "u1", "t1"⟩) :=
  ⟨(hub_inv_preservation
      (registerClient (newHub fun _ => ⟨false, [], 2, 0, 0⟩) ⟨"c1", "u1", "t1"⟩)
      ⟨"c1", "u1", "t1"⟩ "g1" "u1" (fun u i _ g => rfl) (by decide)).2.1,
   (hub_inv_preservation
      (registerClient (newHub fun _ => ⟨false, [], 2, 0, 0⟩) ⟨"c1", "u1", "t1"⟩)
      ⟨"c1", "u1", "t1"⟩ "g1" "u1" (fun u i _ g => rfl) (by decide)).2.2.2.2
      (by decide)⟩

/-! ## SendToGroup: de-duplication bounds -/

theorem send_true_queue (m : ClientMem) (msg : Msg) (m2 : ClientMem)
    (h : m.send msg = (m2, true)) : m2.queue = m.queue ++ [msg] := by
  unfold ClientMem.send at h
  by_cases h1 : m.isClosed
  · rw [if_pos h1] at h
    injection h with _ hb
    exact Bool.noConfusion hb
  · rw [if_neg h1] at h
    by_cases h2 : m.queue.length < m.cap
    · rw [if_pos h2] at h
      injection h with hm _
      rw [← hm]
    · rw [if_neg h2] at h
      injection h with _ hb
      exact Bool.noConfusion hb

theorem sendDedupLoop_bound (msg : Msg) (L : List (String × Client)) :
    ∀ (h : Heap) (sent : List String) (n : Nat) (c : Client),
      (∀ p ∈ L, p.1 = p.2.id) →
      ((∀ x ∈ sent, x ∈ (sendDedupLoop msg L h sent n).2.1) ∧
       (c.id ∈ sent → (sendDedupLoop msg L h sent n).1 c = h c) ∧
       (c.id ∉ (sendDedupLoop msg L h sent n).2.1 →
         (sendDedupLoop msg L h sent n).1 c = h c) ∧
       ((sendDedupLoop msg L h sent n).1 c).queue.count msg ≤
         (h c).queue.count msg + (if c.id ∈ sent then 0 else 1)) := by
  induction L with
  | nil =>
    intro h sent n c _
    refine ⟨fun x hx => hx, fun _ => rfl, fun _ => rfl, ?_⟩
    by_cases hmem : c.id ∈ sent <;> simp [sendDedupLoop, hmem]
  | cons q rest ih =>
    intro h sent n c hL
    obtain ⟨i, cl⟩ := q
    have hid : i = cl.id := hL (i, cl) (List.mem_cons_self _ _)
    have hLr : ∀ p ∈ rest, p.1 = p.2.id := fun p hp => hL p (List.mem_cons_of_mem _ hp)
    by_cases hmem : i ∈ sent
    · have hred : sendDedupLoop msg ((i, cl) :: rest) h sent n =
          sendDedupLoop msg rest h sent n := by
        simp only [sendDedupLoop, if_pos hmem]
      rw [hred]
      exact ih h sent n c hLr
    · rcases hsp : (h cl).send msg with ⟨m2, b⟩
      cases b
      · have hred : sendDedupLoop msg ((i, cl) :: rest) h sent n =
            sendDedupLoop msg rest h sent n := by
          simp only [sendDedupLoop, if_neg hmem, hsp]
        rw [hred]
        exact ih h sent n c hLr
      · have hred : sendDedupLoop msg ((i, cl) :: rest) h sent n =
            sendDedupLoop msg rest (hupdate h cl m2) (i :: sent) (n + 1) := by
          simp only [sendDedupLoop, if_neg hmem, hsp]
        rw [hred]
        have hq2 : m2.queue = (h cl).queue ++ [msg] := send_true_queue (h cl) msg m2 hsp
        have ihh := ih (hupdate h cl m2) (i :: sent) (n + 1) c hLr
        refine ⟨?_, ?_, ?_, ?_⟩
        · intro x hx
          exact ihh.1 x (List.mem_cons_of_mem _ hx)
        · intro hcs
          have hclc : cl ≠ c := by
            intro hcc
            exact hmem (by rw [hid, hcc]; exact hcs)
          have hres := ihh.2.1 (List.mem_cons_of_mem _ hcs)
          rw [hres, hupdate_ne h cl c m2 (fun hh => hclc hh.symm)]
        · intro hns
          have hni : c.id ≠ i := by
            intro hh
            exact hns (hh ▸ ihh.1 i (List.mem_cons_self _ _))
          have hclc : cl ≠ c := by
            intro hcc
            exact hni (by rw [hcc] at hid; exact hid.symm)
          have hres := ihh.2.2.1 hns
          rw [hres, hupdate_ne h cl c m2 (fun hh => hclc hh.symm)]
        · by_cases hcc : cl = c
          · subst hcc
            rw [if_neg (by rw [← hid]; exact hmem)]
            have hres := ihh.2.1 (by rw [← hid]; exact List.mem_cons_self _ _)
            rw [hres, hupdate_self, hq2, List.count_append]
            simp
          · have hclne : c ≠ cl := fun hh => hcc hh.symm
            by_cases hcs : c.id ∈ sent
            · have hres := ihh.2.1 (List.mem_cons_of_mem _ hcs)
              rw [hres, hupdate_ne h cl c m2 hclne, if_pos hcs]
              simp
            · by_cases hci : c.id = i
              · have hres := ihh.2.1 (by rw [hci]; exact List.mem_cons_self _ _)
                rw [hres, hupdate_ne h cl c m2 hclne, if_neg hcs]
                omega
              · have hb := ihh.2.2.2
                rw [hupdate_ne h cl c m2 hclne] at hb
                rw [if_neg hcs]
                have hif2 : (if c.id ∈ i :: sent then 0 else 1) = 1 := by
                  rw [if_neg ?_]
                  intro hx
                  rcases List.mem_cons.mp hx with h1 | h2
                  · exact hci h1
                  · exact hcs h2
                rw [hif2] at hb
                exact hb

theorem sendGroupUsersLoop_bound (msg : Msg) (gu : GroupUsers) :
    ∀ (h : Heap) (sent : List String) (n : Nat) (c : Client),
      (∀ q ∈ gu, ∀ p ∈ q.2, p.1 = p.2.id) →
      ((∀ x ∈ sent, x ∈ (sendGroupUsersLoop msg gu h sent n).2.1) ∧
       (c.id ∈ sent → (sendGroupUsersLoop msg gu h sent n).1 c = h c) ∧
       (c.id ∉ (sendGroupUsersLoop msg gu h sent n).2.1 →
         (sendGroupUsersLoop msg gu h sent n).1 c = h c) ∧
       ((sendGroupUsersLoop msg gu h sent n).1 c).queue.count msg ≤
         (h c).queue.count msg + (if c.id ∈ sent then 0 else 1)) := by
  induction gu with
  | nil =>
    intro h sent n c _
    refine ⟨fun x hx => hx, fun _ => rfl, fun _ => rfl, ?_⟩
    by_cases hmem : c.id ∈ sent <;> simp [sendGroupUsersLoop, hmem]
  | cons q rest ih =>
    intro h sent n c hL
    obtain ⟨u, uc⟩ := q
    have hLu : ∀ p ∈ uc, p.1 = p.2.id := hL (u, uc) (List.mem_cons_self _ _)
    have hLr : ∀ q2 ∈ rest, ∀ p ∈ q2.2, p.1 = p.2.id :=
      fun q2 hq2 => hL q2 (List.mem_cons_of_mem _ hq2)
    have hinner := sendDedupLoop_bound msg uc h sent n c hLu
    have hred : sendGroupUsersLoop msg ((u, uc) :: rest) h sent n =
        sendGroupUsersLoop msg rest (sendDedupLoop msg uc h sent n).1
          (sendDedupLoop msg uc h sent n).2.1 (sendDedupLoop msg uc h sent n).2.2 := by
      simp only [sendGroupUsersLoop]
    rw [hred]
    have ihh := ih (sendDedupLoop msg uc h sent n).1
      (sendDedupLoop msg uc h sent n).2.1 (sendDedupLoop msg uc h sent n).2.2 c hLr
    refine ⟨?_, ?_, ?_, ?_⟩
    · intro x hx
      exact ihh.1 x (hinner.1 x hx)
    · intro hcs
      rw [ihh.2.1 (hinner.1 c.id hcs), hinner.2.1 hcs]
    · intro hns
      have hns2 : c.id ∉ (sendDedupLoop msg uc h sent n).2.1 :=
        fun hx => hns (ihh.1 c.id hx)
      rw [ihh.2.2.1 hns, hinner.2.2.1 hns2]
    · by_cases hcs : c.id ∈ sent
      · rw [ihh.2.1 (hinner.1 c.id hcs), hinner.2.1 hcs, if_pos hcs]
        simp
      · rw [if_neg hcs]
        by_cases hcr : c.id ∈ (sendDedupLoop msg uc h sent n).2.1
        · have h1 := hinner.2.2.2
          rw [if_neg hcs] at h1
          rw [ihh.2.1 hcr]
          exact h1
        · have h0 := hinner.2.2.1 hcr
          have h2 := ihh.2.2.2
          rw [if_neg hcr, h0] at h2
          exact h2

theorem sendAllLoop_count_occ (msg : Msg) (L : List (String × Client)) :
    ∀ (h : Heap) (n : Nat) (c : Client),
      (((sendAllLoop msg L h n).1 c).queue.count msg) ≤
        ((h c).queue.count msg) + (L.map Prod.snd).count c := by
  induction L with
  | nil => intro h n c; simp [sendAllLoop]
  | cons q rest ih =>
    intro h n c
    obtain ⟨i, cl⟩ := q
    have hcons : (List.map Prod.snd ((i, cl) :: rest)).count c =
        (List.map Prod.snd rest).count c + (if cl = c then 1 else 0) := by
      rw [List.map_cons, List.count_cons]
      simp
    rcases hsp : (h cl).send msg with ⟨m2, b⟩
    cases b
    · have hred : sendAllLoop msg ((i, cl) :: rest) h n = sendAllLoop msg rest h n := by
        simp only [sendAllLoop, hsp]
      rw [hred, hcons]
      have hrec := ih h n c
      by_cases hcc : cl = c
      · rw [if_pos hcc]
        omega
      · rw [if_neg hcc]
        omega
    · have hred : sendAllLoop msg ((i, cl) :: rest) h n =
          sendAllLoop msg rest (hupdate h cl m2) (n + 1) := by
        simp only [sendAllLoop, hsp]
      rw [hred, hcons]
      have hrec := ih (hupdate h cl m2) (n + 1) c
      by_cases hcc : cl = c
      · subst hcc
        rw [if_pos rfl]
        have hq2 : m2.queue = (h cl).queue ++ [msg] := send_true_queue _ _ _ hsp
        rw [hupdate_self, hq2, List.count_append] at hrec
        simp at hrec
        omega
      · rw [if_neg hcc]
        rw [hupdate_ne h cl c m2 (fun hh => hcc hh.symm)] at hrec
        omega

theorem sendExceptLoop_bound (msg : Msg) (exclude : String) (gu : GroupUsers) :
    ∀ (h : Heap) (n : Nat) (c : Client),
      (((sendExceptLoop msg exclude gu h n).1 c).queue.count msg) ≤
        ((h c).queue.count msg) +
          (gu.map fun q =>
            if q.1 = exclude then 0 else (q.2.map Prod.snd).count c).sum := by
  induction gu with
  | nil => intro h n c; simp [sendExceptLoop]
  | cons q rest ih =>
    intro h n c
    obtain ⟨u, uc⟩ := q
    by_cases hu : u = exclude
    · have hred : sendExceptLoop msg exclude ((u, uc) :: rest) h n =
          sendExceptLoop msg exclude rest h n := by
        simp only [sendExceptLoop, if_pos hu]
      rw [hred]
      simp only [List.map_cons, List.sum_cons]
      rw [if_pos hu]
      have hrec := ih h n c
      omega
    · have hred : sendExceptLoop msg exclude ((u, uc) :: rest) h n =
          sendExceptLoop msg exclude rest (sendAllLoop msg uc h n).1
            (sendAllLoop msg uc h n).2 := by
        simp only [sendExceptLoop, if_neg hu]
      rw [hred]
      simp only [List.map_cons, List.sum_cons]
      rw [if_neg hu]
      have h1 := sendAllLoop_count_occ msg uc h n c
      have h2 := ih (sendAllLoop msg uc h n).1 (sendAllLoop msg uc h n).2 c
      omega

theorem sendExceptLoop_excluded (msg : Msg) (exclude : String) (gu : GroupUsers) :
    ∀ (h : Heap) (n : Nat) (c : Client),
      (∀ q ∈ gu, ∀ p ∈ q.2, q.1 = p.2.userID) → c.userID = exclude →
      (sendExceptLoop msg exclude gu h n).1 c = h c := by
  induction gu with
  | nil => intro h n c _ _; rfl
  | cons q rest ih =>
    intro h n c hL hce
    obtain ⟨u, uc⟩ := q
    have hLr : ∀ q2 ∈ rest, ∀ p ∈ q2.2, q2.1 = p.2.userID :=
      fun q2 hq2 => hL q2 (List.mem_cons_of_mem _ hq2)
    by_cases hu : u = exclude
    · have hred : sendExceptLoop msg exclude ((u, uc) :: rest) h n =
          sendExceptLoop msg exclude rest h n := by
        simp only [sendExceptLoop, if_pos hu]
      rw [hred]
      exact ih h n c hLr hce
    · have hred : sendExceptLoop msg exclude ((u, uc) :: rest) h n =
          sendExceptLoop msg exclude rest (sendAllLoop msg uc h n).1
            (sendAllLoop msg uc h n).2 := by
        simp only [sendExceptLoop, if_neg hu]
      rw [hred]
      have hnotin : c ∉ uc.map Prod.snd := by
        intro hmem
        rcases List.mem_map.mp hmem with ⟨p, hp, hpc⟩
        have hup : u = p.2.userID := hL (u, uc) (List.mem_cons_self _ _) p hp
        rw [hpc] at hup
        exact hu (by rw [hup, hce])
      rw [ih _ _ c hLr hce, sendAllLoop_untouched msg uc h n c hnotin]

theorem wf_inner_count_le_one (uc : List (String × Client)) (c : Client)
    (hnd : KeysNodup uc) (hid : ∀ p ∈ uc, p.1 = p.2.id) :
    (uc.map Prod.snd).count c ≤ 1 := by
  induction uc with
  | nil => simp
  | cons q rest ih =>
    obtain ⟨i, cl⟩ := q
    have hkey : i ∉ rest.map Prod.fst := by
      simp only [KeysNodup, List.map_cons, List.nodup_cons] at hnd
      exact hnd.1
    have hnd2 : KeysNodup rest := by
      simp only [KeysNodup, List.map_cons, List.nodup_cons] at hnd
      exact hnd.2
    have hidr : ∀ p ∈ rest, p.1 = p.2.id := fun p hp => hid p (List.mem_cons_of_mem _ hp)
    have hcons : (List.map Prod.snd ((i, cl) :: rest)).count c =
        (List.map Prod.snd rest).count c + (if cl = c then 1 else 0) := by
      rw [List.map_cons, List.count_cons]
      simp
    rw [hcons]
    by_cases hcc : cl = c
    · rw [if_pos hcc]
      have hzero : (List.map Prod.snd rest).count c = 0 := by
        rw [List.count_eq_zero]
        intro hmem
        rcases List.mem_map.mp hmem with ⟨p, hp, hpc⟩
        apply hkey
        have h1 : p.1 = p.2.id := hidr p hp
        rw [hpc] at h1
        have h2 : i = cl.id := hid (i, cl) (List.mem_cons_self _ _)
        rw [hcc] at h2
        have h3 : p.1 = i := by rw [h1, ← h2]
        rw [← h3]
        exact List.mem_map_of_mem Prod.fst hp
      omega
    · rw [if_neg hcc]
      have := ih hnd2 hidr
      omega

theorem wf_group_sum_le_one (gu : GroupUsers) (c : Client) (exclude : String)
    (hnd : KeysNodup gu)
    (hwf : ∀ q ∈ gu, KeysNodup q.2 ∧ ∀ p ∈ q.2, p.1 = p.2.id ∧ q.1 = p.2.userID) :
    (gu.map fun q => if q.1 = exclude then 0 else (q.2.map Prod.snd).count c).sum ≤ 1 := by
  induction gu with
  | nil => simp
  | cons q rest ih =>
    obtain ⟨u, uc⟩ := q
    have hkey : u ∉ rest.map Prod.fst := by
      simp only [KeysNodup, List.map_cons, List.nodup_cons] at hnd
      exact hnd.1
    have hnd2 : KeysNodup rest := by
      simp only [KeysNodup, List.map_cons, List.nodup_cons] at hnd
      exact hnd.2
    have hwfr : ∀ q2 ∈ rest, KeysNodup q2.2 ∧ ∀ p ∈ q2.2, p.1 = p.2.id ∧ q2.1 = p.2.userID :=
      fun q2 hq2 => hwf q2 (List.mem_cons_of_mem _ hq2)
    simp only [List.map_cons, List.sum_cons]
    by_cases hcnt : (uc.map Prod.snd).count c = 0
    · have hterm : (if u = exclude then 0 else (uc.map Prod.snd).count c) = 0 := by
        by_cases hu : u = exclude
        · rw [if_pos hu]
        · rw [if_neg hu]
          exact hcnt
      rw [hterm]
      have := ih hnd2 hwfr
      omega
    · have hcmem : c ∈ uc.map Prod.snd := by
        by_contra hc
        exact hcnt (List.count_eq_zero.mpr hc)
      rcases List.mem_map.mp hcmem with ⟨p, hp, hpc⟩
      have hu_eq : u = c.userID := by
        have hx := ((hwf (u, uc) (List.mem_cons_self _ _)).2 p hp).2
        rw [hpc] at hx
        exact hx
      have hterm_le : (if u = exclude then 0 else (uc.map Prod.snd).count c) ≤ 1 := by
        by_cases hu : u = exclude
        · rw [if_pos hu]
          omega
        · rw [if_neg hu]
          exact wf_inner_count_le_one uc c (hwf (u, uc) (List.mem_cons_self _ _)).1
            (fun p2 hp2 => ((hwf (u, uc) (List.mem_cons_self _ _)).2 p2 hp2).1)
      have hrest0 :
          (rest.map fun q2 =>
            if q2.1 = exclude then 0 else (q2.2.map Prod.snd).count c).sum = 0 := by
        apply List.sum_eq_zero
        intro x hx
        rcases List.mem_map.mp hx with ⟨q2, hq2, hqx⟩
        subst hqx
        show (if q2.1 = exclude then 0 else (q2.2.map Prod.snd).count c) = 0
        by_cases hqe : q2.1 = exclude
        · rw [if_pos hqe]
        · rw [if_neg hqe]
          rw [List.count_eq_zero]
          intro hcm
          rcases List.mem_map.mp hcm with ⟨p2, hp2, hp2c⟩
          have h1 : q2.1 = p2.2.userID := ((hwfr q2 hq2).2 p2 hp2).2
          rw [hp2c] at h1
          apply hkey
          have h3 : q2.1 = u := by rw [h1, ← hu_eq]
          rw [← h3]
          exact List.mem_map_of_mem Prod.fst hq2
      rw [hrest0]
      omega

/-- A well-keyed group entry: outer and bucket keys occur once, and every
binding sits under its own client's UserID and ID (true of every group built
by JoinGroup from the empty hub). -/
abbrev WFGroup (gu : GroupUsers) : Prop :=
  KeysNodup gu ∧ ∀ q ∈ gu, KeysNodup q.2 ∧ ∀ p ∈ q.2, p.1 = p.2.id ∧ q.1 = p.2.userID

/-- Claim C2: SendToGroup and SendToGroupExcept enqueue a message at most once
per distinct client identity on a well-keyed group, and SendToGroupExcept
leaves every client of the excluded user untouched. -/
theorem sendToGroup_dedup_spec (s : HubState) (g exclude : String) (msg : Msg)
    (c : Client) (hwf : WFGroup ((mlookup g s.groups).getD [])) :
    (((sendToGroup s g msg).1.heap c).queue.count msg ≤
      ((s.heap c).queue.count msg) + 1) ∧
    (((sendToGroupExcept s g exclude msg).1.heap c).queue.count msg ≤
      ((s.heap c).queue.count msg) + 1) ∧
    (c.userID = exclude → (sendToGroupExcept s g exclude msg).1.heap c = s.heap c) := by
  rcases hg : mlookup g s.groups with _ | gu
  · have h1 : sendToGroup s g msg = (s, 0) := by
      unfold sendToGroup
      simp [hg]
    have h2 : sendToGroupExcept s g exclude msg = (s, 0) := by
      unfold sendToGroupExcept
      simp [hg]
    rw [h1, h2]
    exact ⟨Nat.le_succ _, Nat.le_succ _, fun _ => rfl⟩
  · rw [hg] at hwf
    simp only [Option.getD_some] at hwf
    obtain ⟨hndg, hq⟩ := hwf
    have hred1 : sendToGroup s g msg =
        ({ s with heap := (sendGroupUsersLoop msg gu s.heap [] 0).1 },
         (sendGroupUsersLoop msg gu s.heap [] 0).2.2) := by
      unfold sendToGroup
      simp [hg]
    have hred2 : sendToGroupExcept s g exclude msg =
        ({ s with heap := (sendExceptLoop msg exclude gu s.heap 0).1 },
         (sendExceptLoop msg exclude gu s.heap 0).2) := by
      unfold sendToGroupExcept
      simp [hg]
    rw [hred1, hred2]
    refine ⟨?_, ?_, ?_⟩
    · have hb := (sendGroupUsersLoop_bound msg gu s.heap [] 0 c
        (fun q2 hq2 p hp => ((hq q2 hq2).2 p hp).1)).2.2.2
      simpa using hb
    · show ((sendExceptLoop msg exclude gu s.heap 0).1 c).queue.count msg ≤
        ((s.heap c).queue.count msg) + 1
      have hocc := sendExceptLoop_bound msg exclude gu s.heap 0 c
      have hsum := wf_group_sum_le_one gu c exclude hndg hq
      omega
    · intro hce
      exact sendExceptLoop_excluded msg exclude gu s.heap 0 c
        (fun q2 hq2 p hp => ((hq q2 hq2).2 p hp).2) hce

/-- A demonstration hub for the C2 witness: one group with two users. -/
def demoGroupHub : HubState :=
  { clients := []
    groups := [("g1", [("u1", [("c1", ⟨"c1", "u1", "t1"⟩)]),
                       ("u2", [("c2", ⟨"c2", "u2", "t1"⟩)])])]
    heap := fun _ => ⟨false, [], 2, 0, 0⟩ }

/-- Witness for C2 on a two-user group: the message lands at most once in the
u1 client queue, and SendToGroupExcept excluding u2 leaves the u2 client
untouched. -/
theorem sendToGroup_dedup_spec_witness :
    (((sendToGroup demoGroupHub "g1" [7]).1.heap ⟨"c1", "u1", "t1"⟩).queue.count [7] ≤
      ((demoGroupHub.heap ⟨"c1", "u1", "t1"⟩).queue.count [7]) + 1) ∧
    (sendToGroupExcept demoGroupHub "g1" "u2" [7]).1.heap ⟨"c2", "u2", "t1"⟩ =
      demoGroupHub.heap ⟨"c2", "u2", "t1"⟩ :=
  ⟨(sendToGroup_dedup_spec demoGroupHub "g1" "u2" [7] ⟨"c1", "u1", "t1"⟩ (by decide)).1,
   (sendToGroup_dedup_spec demoGroupHub "g1" "u2" [7] ⟨"c2", "u2", "t1"⟩ (by decide)).2.2
     rfl⟩

end GoUtils.WS
